import Mathlib

/-! CAMO-ACO routing agent (`src/CAMOACORouting.cc`)

A shallow embedding of the ant-colony path finder of the Veins application layer
`CAMOACORouting`, and theorems about it.

Modelling conventions.

* `double` is modelled by exact rational arithmetic (`ℚ`); rounding, infinities and NaN of
  IEEE arithmetic are outside the model.
* `std::map<std::string, T>` is modelled by an association list read by first match.
  `operator[]` on a map value-initialises a missing entry, so every function that reads a
  table through `operator[]` returns the table as well.  Entries are kept in insertion
  order; the results of the program are characterised below through lookups, which do not
  depend on the order of the entries.
* `pow` of `<cmath>` and `uniform` of the simulation kernel are not part of the repository:
  `pow` is a parameter of the functions that call it, and the random stream is a field of
  the agent (`rng k a b` is the value returned by the `k`-th pending call, made as
  `uniform(a, b)`).
* The `while` loop of `findOptimalPath` has no step bound in the source; the embedding
  gives it a fuel argument and returns `none` when the fuel is exhausted.
-/

namespace CAMOACO

/-! ## Data model -/

/-- Candidate outgoing edge, `struct RouteSegment` of `CAMOACORouting.h`. -/
structure RouteSegment where
  edgeId : String
  pheromone : ℚ
  traffic : ℚ

/-- The type `std::map<std::string, double>` of the two signal tables. -/
abbrev Table := List (String × ℚ)

/-- The type `std::map<std::string, std::vector<RouteSegment>>` of `roadNetwork`. -/
abbrev Network := List (String × List RouteSegment)

/-- Lookup `std::map::find`: the value stored under the key, if any. -/
def mapFind {V : Type} (k : String) : List (String × V) → Option V
  | [] => none
  | (k', v) :: rest => if k' = k then some v else mapFind k rest

/-- The key set of a map, in entry order. -/
def mapKeys {V : Type} (m : List (String × V)) : List String := m.map Prod.fst

/-- The value a table holds for a key when a missing entry reads as `0`. -/
def mapGet (m : Table) (k : String) : ℚ := (mapFind k m).getD 0

/-- Access `m[k]` followed by an in-place update of the referenced value with `f`:
a missing entry is created with value `0` first. -/
def mapUpdate (m : Table) (k : String) (f : ℚ → ℚ) : Table :=
  match m with
  | [] => [(k, f 0)]
  | (k', v) :: rest => if k' = k then (k', f v) :: rest else (k', v) :: mapUpdate rest k f

/-- Read access `m[k]`: returns the referenced value and the table, in which a missing
entry has been created with value `0`. -/
def mapIndex (m : Table) (k : String) : ℚ × Table :=
  (mapGet m k, mapUpdate m k id)

/-- The members of `class CAMOACORouting` that the routing engine uses, together with the
random stream of the component. -/
structure Agent where
  evaporationRate : ℚ
  alpha : ℚ
  beta : ℚ
  numAnts : Int
  roadNetwork : Network
  pheromoneMatrix : Table
  trafficDensity : Table
  rng : Nat → ℚ → ℚ → ℚ

/-! ## `updateTrafficDensity` and `updatePheromones` -/

/-- Embedding of `CAMOACORouting::updateTrafficDensity`: `trafficDensity[edge] = density`. -/
def updateTrafficDensity (s : Agent) (edge : String) (density : ℚ) : Agent :=
  { s with trafficDensity := mapUpdate s.trafficDensity edge (fun _ => density) }

/-- First loop of `updatePheromones`: `entry.second *= (1.0 - evaporationRate)` for every
entry of `pheromoneMatrix`. -/
def evaporate (evaporationRate : ℚ) (pheromoneMatrix : Table) : Table :=
  pheromoneMatrix.map (fun entry => (entry.1, entry.2 * (1 - evaporationRate)))

/-- Second loop of `updatePheromones`, over the entries of `roadNetwork`; returns the
pheromone table and the traffic table. -/
def reinforce : Network → Table → Table → Table × Table
  | [], pheromoneMatrix, trafficDensity => (pheromoneMatrix, trafficDensity)
  | edge :: rest, pheromoneMatrix, trafficDensity =>
    let traffic := (mapIndex trafficDensity edge.1).1
    let trafficDensity1 := (mapIndex trafficDensity edge.1).2
    let quality := 1 / (1 + traffic)
    reinforce rest (mapUpdate pheromoneMatrix edge.1 (fun v => v + quality)) trafficDensity1

/-- Embedding of `CAMOACORouting::updatePheromones`. -/
def updatePheromones (s : Agent) : Agent :=
  let r := reinforce s.roadNetwork (evaporate s.evaporationRate s.pheromoneMatrix) s.trafficDensity
  { s with pheromoneMatrix := r.1, trafficDensity := r.2 }

/-! ## `calculatePathQuality` and `selectNextEdge` -/

/-- Embedding of `CAMOACORouting::calculatePathQuality`: both tables are read through
`operator[]` at `current`; `next` is not used. -/
def calculatePathQuality (s : Agent) (current _next : String) : ℚ × Agent :=
  let pheromone := (mapIndex s.pheromoneMatrix current).1
  let traffic := (mapIndex s.trafficDensity current).1
  (pheromone / (1 + traffic),
    { s with pheromoneMatrix := (mapIndex s.pheromoneMatrix current).2,
             trafficDensity := (mapIndex s.trafficDensity current).2 })

/-- First loop of `selectNextEdge`: for each segment both tables are read through
`operator[]`, the probability is pushed back and added to `totalProbability`.  Returns
`probabilities`, `totalProbability` and the agent. -/
def probabilityLoop (pow : ℚ → ℚ → ℚ) :
    List RouteSegment → Agent → List ℚ → ℚ → List ℚ × ℚ × Agent
  | [], s, probabilities, totalProbability => (probabilities, totalProbability, s)
  | segment :: rest, s, probabilities, totalProbability =>
    let pheromone := (mapIndex s.pheromoneMatrix segment.edgeId).1
    let heuristic := 1 / (1 + (mapIndex s.trafficDensity segment.edgeId).1)
    let probability := pow pheromone s.alpha * pow heuristic s.beta
    probabilityLoop pow rest
      { s with pheromoneMatrix := (mapIndex s.pheromoneMatrix segment.edgeId).2,
               trafficDensity := (mapIndex s.trafficDensity segment.edgeId).2 }
      (probabilities ++ [probability]) (totalProbability + probability)

/-- Second loop of `selectNextEdge`: walks `availableEdges` and `probabilities` together
from the running `sum`; `none` when the loop ends without returning. -/
def selectionLoop (random : ℚ) : List RouteSegment → List ℚ → ℚ → Option String
  | segment :: segments, probability :: probabilities, sum =>
    if sum + probability ≥ random then some segment.edgeId
    else selectionLoop random segments probabilities (sum + probability)
  | _, _, _ => none

/-- Embedding of `CAMOACORouting::selectNextEdge`.  The draw is
`uniform(0, totalProbability)`, the next value of the random stream. -/
def selectNextEdge (pow : ℚ → ℚ → ℚ) (s : Agent) (availableEdges : List RouteSegment) :
    String × Agent :=
  match availableEdges with
  | [] => ("", s)
  | first :: _ =>
    let r := probabilityLoop pow availableEdges s [] 0
    let random := r.2.2.rng 0 0 r.2.1
    let s1 : Agent := { r.2.2 with rng := fun k => r.2.2.rng (k + 1) }
    match selectionLoop random availableEdges r.1 0 with
    | some edge => (edge, s1)
    | none => (first.edgeId, s1)

/-! ## `findOptimalPath` -/

/-- The state of one run when its `while` loop has ended. -/
structure Run where
  agent : Agent
  current : String
  currentPath : List String
  pathQuality : ℚ

/-- The `while (current != destination)` loop of `findOptimalPath`; `fuel` bounds the number
of evaluations of the loop condition, and `none` means that the bound was exhausted. -/
def whileLoop (pow : ℚ → ℚ → ℚ) (destination : String) :
    Nat → Agent → String → List String → ℚ → Option Run
  | 0, _, _, _, _ => none
  | fuel + 1, s, current, currentPath, pathQuality =>
    if current = destination then some ⟨s, current, currentPath, pathQuality⟩
    else
      match mapFind current s.roadNetwork with
      | none => some ⟨s, current, currentPath, pathQuality⟩
      | some [] => some ⟨s, current, currentPath, pathQuality⟩
      | some (segment :: segments) =>
        let sel := selectNextEdge pow s (segment :: segments)
        if sel.1 = "" then some ⟨sel.2, current, currentPath, pathQuality⟩
        else
          let q := calculatePathQuality sel.2 current sel.1
          whileLoop pow destination fuel q.2 sel.1 (currentPath ++ [sel.1]) (pathQuality + q.1)

/-- The `for (int i = 0; i < numAnts; i++)` loop of `findOptimalPath`, with the number of
iterations still to run; returns the agent, `bestPath` and `bestQuality`. -/
def antLoop (pow : ℚ → ℚ → ℚ) (fuel : Nat) (start destination : String) :
    Nat → Agent → List String → ℚ → Option (Agent × List String × ℚ)
  | 0, s, bestPath, bestQuality => some (s, bestPath, bestQuality)
  | n + 1, s, bestPath, bestQuality =>
    match whileLoop pow destination fuel s start [] 0 with
    | none => none
    | some run =>
      if run.pathQuality > bestQuality ∧ run.current = destination then
        antLoop pow fuel start destination n run.agent run.currentPath run.pathQuality
      else
        antLoop pow fuel start destination n run.agent bestPath bestQuality

/-- Embedding of `CAMOACORouting::findOptimalPath`: the returned path and the agent after
the call, or `none` when a run exhausts `fuel`. -/
def findOptimalPath (pow : ℚ → ℚ → ℚ) (fuel : Nat) (s : Agent) (start destination : String) :
    Option (List String × Agent) :=
  match antLoop pow fuel start destination s.numAnts.toNat s [] (-1) with
  | none => none
  | some r => some (r.2.1, updatePheromones r.1)

/-- The outcomes of the successive runs of `findOptimalPath`, in order, paired with the
agent after the last of them. -/
def antRuns (pow : ℚ → ℚ → ℚ) (fuel : Nat) (start destination : String) :
    Nat → Agent → Option (List Run × Agent)
  | 0, s => some ([], s)
  | n + 1, s =>
    match whileLoop pow destination fuel s start [] 0 with
    | none => none
    | some run =>
      match antRuns pow fuel start destination n run.agent with
      | none => none
      | some r => some (run :: r.1, r.2)

/-! ## Operation sequences and invariants -/

/-- The operations on the signal tables that the agent offers. -/
inductive Op where
  | updateTrafficDensity (edge : String) (density : ℚ)
  | updatePheromones
  | findOptimalPath (fuel : Nat) (start destination : String)

/-- An operation is admissible when the density it reports, if any, is non-negative. -/
def Op.Admissible : Op → Prop
  | .updateTrafficDensity _ density => 0 ≤ density
  | .updatePheromones => True
  | .findOptimalPath _ _ _ => True

/-- The agent after one operation; `none` when a run of `findOptimalPath` exhausts its fuel. -/
def applyOp (pow : ℚ → ℚ → ℚ) (s : Agent) : Op → Option Agent
  | .updateTrafficDensity edge density => some (updateTrafficDensity s edge density)
  | .updatePheromones => some (updatePheromones s)
  | .findOptimalPath fuel start destination =>
    match findOptimalPath pow fuel s start destination with
    | none => none
    | some r => some r.2

/-- The agent after a sequence of operations. -/
def applyOps (pow : ℚ → ℚ → ℚ) : List Op → Agent → Option Agent
  | [], s => some s
  | op :: ops, s =>
    match applyOp pow s op with
    | none => none
    | some s1 => applyOps pow ops s1

/-- Every value stored in the table is non-negative. -/
def TableNonneg (t : Table) : Prop := ∀ entry ∈ t, 0 ≤ entry.2

/-- The agent `s'` differs from `s` at most by entries of value `0` that read accesses
created, and by the position of the random stream. -/
structure ReadOnly (s s' : Agent) : Prop where
  evaporationRate : s'.evaporationRate = s.evaporationRate
  alpha : s'.alpha = s.alpha
  beta : s'.beta = s.beta
  numAnts : s'.numAnts = s.numAnts
  roadNetwork : s'.roadNetwork = s.roadNetwork
  pheromone : ∀ e, mapGet s'.pheromoneMatrix e = mapGet s.pheromoneMatrix e
  traffic : ∀ e, mapGet s'.trafficDensity e = mapGet s.trafficDensity e
  pheromoneNonneg : TableNonneg s.pheromoneMatrix → TableNonneg s'.pheromoneMatrix
  trafficNonneg : TableNonneg s.trafficDensity → TableNonneg s'.trafficDensity

/-! ## Selection weights, as the specification words them -/

/-- The selection weight of edge `e`: `pheromone[e]^alpha * (1 / (1 + trafficDensity[e]))^beta`,
a missing table entry reading as `0`. -/
def selectionWeight (pow : ℚ → ℚ → ℚ) (s : Agent) (e : String) : ℚ :=
  pow (mapGet s.pheromoneMatrix e) s.alpha * pow (1 / (1 + mapGet s.trafficDensity e)) s.beta

/-- The sum of the weights of all candidates. -/
def totalWeight (pow : ℚ → ℚ → ℚ) (s : Agent) (candidates : List RouteSegment) : ℚ :=
  (candidates.map (fun c => selectionWeight pow s c.edgeId)).sum

/-- The cumulative weight of the candidates at positions `0, ..., i`. -/
def cumulativeWeight (pow : ℚ → ℚ → ℚ) (s : Agent) (candidates : List RouteSegment)
    (i : Nat) : ℚ :=
  totalWeight pow s (candidates.take (i + 1))

/-! ## `initialize` -/

/-- The values configured for the four module parameters; `numAnts` is the 64-bit integer
that `par("numAnts").intValue()` returns. -/
structure Parameters where
  evaporationRate : ℚ
  alpha : ℚ
  beta : ℚ
  numAnts : Int

/-- Conversion of an integer value to the 32-bit `int` of the member `numAnts`: the value is
reduced modulo `2^32` into the range from `-2^31` to `2^31 - 1`. -/
def toInt32 (v : Int) : Int := (v + 2147483648) % 4294967296 - 2147483648

/-- The calls that `initialize` makes into the simulation framework, which is not part of the
repository.  Each of them either returns or throws: the base-class `initialize(stage)`, the
reads `par(name).doubleValue()` and `par(name).intValue()`, the lookup of the TraCI mobility
module with its command interfaces, and the scheduling of the update timer. -/
structure Framework where
  baseInitialize : Int → Except String Unit
  doubleValue : String → Except String ℚ
  intValue : String → Except String Int
  mobilityAccess : Except String Unit
  scheduleAt : Except String Unit

/-- Embedding of `CAMOACORouting::initialize` (the name is reserved in Lean).  The function
fails when a framework call throws; it has no check of its own.  At stage `0` the three
`double` parameters are copied into the agent and the integer read for `numAnts` is narrowed
to `int`; the TraCI handles and the timer are not among the members modelled here. -/
def initialise (env : Framework) (s : Agent) (stage : Int) : Except String Agent := do
  env.baseInitialize stage
  if stage = 0 then
    let evaporationRate ← env.doubleValue "evaporationRate"
    let alpha ← env.doubleValue "alpha"
    let beta ← env.doubleValue "beta"
    let numAnts ← env.intValue "numAnts"
    env.mobilityAccess
    env.scheduleAt
    pure { s with evaporationRate := evaporationRate, alpha := alpha, beta := beta,
                  numAnts := toInt32 numAnts }
  else
    pure s

/-- A framework in which every call returns and the four parameters have the configured
values; a read of any other parameter throws. -/
def frameworkOf (par : Parameters) : Framework :=
  { baseInitialize := fun _ => Except.ok (),
    doubleValue := fun name =>
      if name = "evaporationRate" then Except.ok par.evaporationRate
      else if name = "alpha" then Except.ok par.alpha
      else if name = "beta" then Except.ok par.beta
      else Except.error name,
    intValue := fun name =>
      if name = "numAnts" then Except.ok par.numAnts else Except.error name,
    mobilityAccess := Except.ok (),
    scheduleAt := Except.ok () }

/-! ## The comparison of runs -/

/-- The comparison at the end of each iteration of the `for` loop of `findOptimalPath`,
applied to the outcomes of the runs in order: returns `bestPath` and `bestQuality`. -/
def pickBest (destination : String) : List Run → List String → ℚ → List String × ℚ
  | [], bestPath, bestQuality => (bestPath, bestQuality)
  | run :: runs, bestPath, bestQuality =>
    if run.pathQuality > bestQuality ∧ run.current = destination then
      pickBest destination runs run.currentPath run.pathQuality
    else
      pickBest destination runs bestPath bestQuality

/-- The specification of the colony optimizer: `path` is empty when no run ended at the
destination, and otherwise it is the path of a run that ended at the destination, whose
quality is the greatest among such runs and strictly greater than that of every earlier
such run. -/
def EarliestBest (destination : String) (runs : List Run) (path : List String) : Prop :=
  ((∀ r ∈ runs, r.current ≠ destination) → path = [])
    ∧ ((∃ r ∈ runs, r.current = destination) →
        ∃ (i : Nat) (r : Run), runs[i]? = some r ∧ r.current = destination ∧ path = r.currentPath
          ∧ ∀ (j : Nat) (r' : Run), runs[j]? = some r' → r'.current = destination →
              r'.pathQuality ≤ r.pathQuality ∧ (j < i → r'.pathQuality < r.pathQuality))

/-! ## Walks of the topology -/

/-- Whether `e` is the `edgeId` of a candidate in `roadNetwork[current]`. -/
def isCandidate (roadNetwork : Network) (current e : String) : Bool :=
  match mapFind current roadNetwork with
  | none => false
  | some segments => segments.any (fun c => decide (c.edgeId = e))

/-- Whether `path` is a walk of the topology that leaves `current`: its first edge is a
candidate of `current`, and every further edge is a candidate of the edge before it. -/
def isWalk (roadNetwork : Network) : String → List String → Bool
  | _, [] => true
  | current, e :: rest => isCandidate roadNetwork current e && isWalk roadNetwork e rest

/-! ## `handlePositionUpdate` -/

/-- Embedding of `CAMOACORouting::needsRerouting`, a placeholder that returns `false`. -/
def needsRerouting (_s : Agent) : Bool := false

/-- The body of `if (needsRerouting())` in `handlePositionUpdate`, with `currentEdge` the
road of the vehicle and `destination` the last planned road, both supplied by TraCI: the
route handed to `changeVehicleRoute` (`none` when `newRouteVector` is empty and no route is
applied) and the agent; `none` when a run of `findOptimalPath` exhausts `fuel`. -/
def reroute (pow : ℚ → ℚ → ℚ) (fuel : Nat) (s : Agent) (currentEdge destination : String) :
    Option (Option (List String) × Agent) :=
  match findOptimalPath pow fuel s currentEdge destination with
  | none => none
  | some r => if !r.1.isEmpty then some (some r.1, r.2) else some (none, r.2)

/-- Embedding of `CAMOACORouting::handlePositionUpdate`. -/
def handlePositionUpdate (pow : ℚ → ℚ → ℚ) (fuel : Nat) (s : Agent)
    (currentEdge destination : String) : Option (Option (List String) × Agent) :=
  if needsRerouting s then reroute pow fuel s currentEdge destination else some (none, s)

/-! ## The accumulated quality of a run, as the specification words it -/

/-- The contribution `pheromone[e] / (1 + trafficDensity[e])` of leaving edge `e`, a missing
table entry reading as `0`. -/
def edgeQuality (s : Agent) (e : String) : ℚ :=
  mapGet s.pheromoneMatrix e / (1 + mapGet s.trafficDensity e)

/-- The quality accumulated along `path` from `start`: the sum of the contributions of the
edges that the run left, which are `start` and all edges of `path` but the last. -/
def accumulatedQuality (s : Agent) (start : String) (path : List String) : ℚ :=
  (((start :: path).dropLast).map (edgeQuality s)).sum

/-! ## Concrete inputs -/

/-- The topology of the end-to-end scenarios, `X -> [Y]`, `Y -> [Z]`. -/
def chainNetwork : Network :=
  [("X", [⟨"Y", 0, 0⟩]), ("Y", [⟨"Z", 0, 0⟩])]

/-- A fresh agent on `chainNetwork`: empty tables, `alpha = beta = 1`, one ant, evaporation
rate one half, and a random stream that returns the lower bound of every draw. -/
def chainAgent : Agent :=
  { evaporationRate := 1 / 2, alpha := 1, beta := 1, numAnts := 1,
    roadNetwork := chainNetwork, pheromoneMatrix := [], trafficDensity := [],
    rng := fun _ a _ => a }

/-- Stand-in for `pow` in examples whose exponents are `1`: `pow(x, 1) = x`. -/
def unitPow : ℚ → ℚ → ℚ := fun x _ => x

/-- A sequence with one operation of each kind. -/
def sampleOps : List Op :=
  [.updateTrafficDensity "X" 5, .findOptimalPath 5 "X" "Z", .updatePheromones]

/-- The agent that `sampleOps` leaves when it is applied to `chainAgent`. -/
def sampleFinal : Agent :=
  { chainAgent with
    pheromoneMatrix := [("Y", 3 / 2), ("X", 1 / 4), ("Z", 0)],
    trafficDensity := [("X", 5), ("Y", 0), ("Z", 0)] }

/-- Two candidates on which a fresh agent has neither pheromone nor traffic. -/
def twoCandidates : List RouteSegment := [⟨"Y", 0, 0⟩, ⟨"Z", 0, 0⟩]

/-- The agent that `findOptimalPath` leaves when a fresh agent on the chain routes from `X`. -/
def chainFinal : Agent :=
  { chainAgent with
    pheromoneMatrix := [("Y", 1), ("X", 1), ("Z", 0)],
    trafficDensity := [("Y", 0), ("X", 0), ("Z", 0)] }

/-- The agent of the end-to-end scenarios: the chain topology, empty tables,
`alpha = beta = 1`, one ant; the evaporation rate and the random stream are arbitrary. -/
def scenarioAgent (evaporationRate : ℚ) (rng : Nat → ℚ → ℚ → ℚ) : Agent :=
  { evaporationRate := evaporationRate, alpha := 1, beta := 1, numAnts := 1,
    roadNetwork := chainNetwork, pheromoneMatrix := [], trafficDensity := [], rng := rng }

/-- The agent of the scenarios when its single run has walked `X`, `Y`, `Z`: the reads of
the run have entered the three edges into both tables with value `0`, and two draws have
been taken from the random stream. -/
def scenarioAfterRun (evaporationRate : ℚ) (rng : Nat → ℚ → ℚ → ℚ) : Agent :=
  { scenarioAgent evaporationRate rng with
    pheromoneMatrix := [("Y", 0), ("X", 0), ("Z", 0)],
    trafficDensity := [("Y", 0), ("X", 0), ("Z", 0)],
    rng := fun k => rng (k + 1 + 1) }

/-- The configuration of scenario D: `evaporationRate = 1.5`. -/
def scenarioDParameters : Parameters :=
  { evaporationRate := 3 / 2, alpha := 1, beta := 1, numAnts := 1 }

/-- A configuration without ants: `numAnts = 0`. -/
def noAntsParameters : Parameters :=
  { evaporationRate := 1 / 2, alpha := 1, beta := 1, numAnts := 0 }

/-- A configuration whose `numAnts` does not fit the 32-bit `int`: `2^32 + 1`. -/
def wideParameters : Parameters :=
  { evaporationRate := 1 / 2, alpha := 1, beta := 1, numAnts := 4294967297 }

/-- A cyclic topology, `X -> [Y]`, `Y -> [X]`. -/
def cycleNetwork : Network :=
  [("X", [⟨"Y", 0, 0⟩]), ("Y", [⟨"X", 0, 0⟩])]

/-- A fresh agent on `cycleNetwork`. -/
def cycleAgent : Agent :=
  { chainAgent with roadNetwork := cycleNetwork }

/-- The number of edges that can still follow an edge on the chain topology. -/
def chainRank (e : String) : Nat :=
  if e = "X" then 2 else if e = "Y" then 1 else 0

/-- The fresh agent of scenario C after `updateTrafficDensity(X, 5.0)`. -/
def congestedAgent : Agent := updateTrafficDensity chainAgent "X" 5

/-- An agent that holds pheromone `1` on `X` and on `Y`, after `updateTrafficDensity(X, 5.0)`. -/
def learnedAgent : Agent :=
  updateTrafficDensity { chainAgent with pheromoneMatrix := [("X", 1), ("Y", 1)] } "X" 5

/-- A topology with four ways out of `S`: through `A`, `B` or `C` to `T`, and through `E`
to the dead end `F`. -/
def forkNetwork : Network :=
  [("S", [⟨"A", 0, 0⟩, ⟨"B", 0, 0⟩, ⟨"C", 0, 0⟩, ⟨"E", 0, 0⟩]),
   ("A", [⟨"T", 0, 0⟩]), ("B", [⟨"T", 0, 0⟩]), ("C", [⟨"T", 0, 0⟩]), ("E", [⟨"F", 0, 0⟩])]

/-- Four ants on `forkNetwork` with pheromone `1, 2, 3, 3, 10` on `S, A, B, C, E` and no
traffic.  The weights of the candidates of `S` are `2, 3, 3, 10`, and the draws taken at `S`
are `1, 4, 7, 10`: the runs leave `S` through `A`, `B`, `C` and `E` in turn. -/
def forkAgent : Agent :=
  { evaporationRate := 1 / 2, alpha := 1, beta := 1, numAnts := 4,
    roadNetwork := forkNetwork,
    pheromoneMatrix := [("S", 1), ("A", 2), ("B", 3), ("C", 3), ("E", 10)],
    trafficDensity := [],
    rng := fun k _ _ =>
      if k = 0 then 1 else if k = 2 then 4 else if k = 4 then 7 else if k = 6 then 10 else 0 }

/-! ## Lemmas on tables -/

theorem mapGet_nil (k : String) : mapGet [] k = 0 := rfl

theorem mapGet_cons (k' : String) (v : ℚ) (rest : Table) (k : String) :
    mapGet ((k', v) :: rest) k = if k' = k then v else mapGet rest k := by
  unfold mapGet
  simp only [mapFind]
  split <;> simp

theorem mapGet_mapUpdate_same (m : Table) (k : String) (f : ℚ → ℚ) :
    mapGet (mapUpdate m k f) k = f (mapGet m k) := by
  induction m with
  | nil => simp [mapUpdate, mapGet_cons, mapGet_nil]
  | cons hd tl ih =>
    obtain ⟨k', v⟩ := hd
    by_cases h : k' = k
    · simp [mapUpdate, mapGet_cons, h]
    · simp [mapUpdate, mapGet_cons, h, ih]

theorem mapGet_mapUpdate_other (m : Table) (k e : String) (f : ℚ → ℚ) (h : k ≠ e) :
    mapGet (mapUpdate m k f) e = mapGet m e := by
  induction m with
  | nil => simp [mapUpdate, mapGet_cons, mapGet_nil, h]
  | cons hd tl ih =>
    obtain ⟨k', v⟩ := hd
    by_cases h' : k' = k
    · subst h'
      simp [mapUpdate, mapGet_cons, h]
    · simp [mapUpdate, mapGet_cons, h', ih]

theorem mapGet_mapUpdate (m : Table) (k e : String) (f : ℚ → ℚ) :
    mapGet (mapUpdate m k f) e = if k = e then f (mapGet m e) else mapGet m e := by
  by_cases h : k = e
  · subst h; simp [mapGet_mapUpdate_same]
  · simp [h, mapGet_mapUpdate_other]

theorem mapGet_mapIndex (m : Table) (k e : String) :
    mapGet (mapIndex m k).2 e = mapGet m e := by
  simp [mapIndex, mapGet_mapUpdate]

theorem mapKeys_mapUpdate (m : Table) (k e : String) (f : ℚ → ℚ) :
    e ∈ mapKeys (mapUpdate m k f) ↔ e ∈ mapKeys m ∨ e = k := by
  induction m with
  | nil => simp [mapUpdate, mapKeys]
  | cons hd tl ih =>
    obtain ⟨k', v⟩ := hd
    by_cases h : k' = k
    · subst h
      simp only [mapUpdate, if_true, mapKeys, List.map_cons, List.mem_cons]
      tauto
    · simp only [mapKeys] at ih
      simp only [mapUpdate, if_neg h, mapKeys, List.map_cons, List.mem_cons, ih]
      tauto

theorem mapFind_eq_none_iff {V : Type} (m : List (String × V)) (k : String) :
    mapFind k m = none ↔ k ∉ mapKeys m := by
  induction m with
  | nil => simp [mapFind, mapKeys]
  | cons hd tl ih =>
    obtain ⟨k', v⟩ := hd
    by_cases h : k' = k
    · simp [mapFind, mapKeys, h]
    · simp only [mapKeys] at ih
      simp [mapFind, mapKeys, h, ih, Ne.symm h]

theorem mapGet_of_find_none (m : Table) (k : String) (h : mapFind k m = none) :
    mapGet m k = 0 := by
  simp [mapGet, h]

theorem mapGet_evaporate (r : ℚ) (m : Table) (e : String) :
    mapGet (evaporate r m) e = mapGet m e * (1 - r) := by
  induction m with
  | nil => simp [evaporate, mapGet_nil]
  | cons hd tl ih =>
    obtain ⟨k', v⟩ := hd
    simp only [evaporate, List.map_cons, mapGet_cons] at ih ⊢
    split
    · rfl
    · exact ih

theorem mapGet_reinforce (rn : Network) (pm td : Table) (e : String) :
    mapGet (reinforce rn pm td).1 e
        = mapGet pm e + ((mapKeys rn).count e : ℚ) * (1 / (1 + mapGet td e))
      ∧ mapGet (reinforce rn pm td).2 e = mapGet td e := by
  induction rn generalizing pm td with
  | nil => simp [reinforce, mapKeys]
  | cons hd tl ih =>
    obtain ⟨k, segs⟩ := hd
    simp only [reinforce]
    obtain ⟨h1, h2⟩ := ih (mapUpdate pm k (fun v => v + 1 / (1 + (mapIndex td k).1)))
      (mapIndex td k).2
    rw [h1, h2]
    refine ⟨?_, mapGet_mapIndex td k e⟩
    rw [mapGet_mapIndex, mapGet_mapUpdate]
    by_cases h : k = e
    · subst h
      simp [mapKeys, mapIndex]
      ring
    · simp [mapKeys, h, List.count_cons]

/-! ## Non-negative tables and read accesses -/

theorem tableNonneg_nil : TableNonneg [] := by
  intro entry h
  cases h

theorem tableNonneg_mapGet {m : Table} (h : TableNonneg m) (k : String) : 0 ≤ mapGet m k := by
  induction m with
  | nil => simp [mapGet_nil]
  | cons hd tl ih =>
    obtain ⟨k', v⟩ := hd
    rw [mapGet_cons]
    split
    · exact h (k', v) (List.mem_cons_self _ _)
    · exact ih (fun entry he => h entry (List.mem_cons_of_mem _ he))

theorem tableNonneg_mapUpdate {m : Table} (h : TableNonneg m) (k : String) (f : ℚ → ℚ)
    (hf : ∀ v, 0 ≤ v → 0 ≤ f v) : TableNonneg (mapUpdate m k f) := by
  induction m with
  | nil =>
    intro entry he
    simp only [mapUpdate, List.mem_singleton] at he
    subst he
    exact hf 0 le_rfl
  | cons hd tl ih =>
    obtain ⟨k', v⟩ := hd
    have htl : TableNonneg tl := fun entry he => h entry (List.mem_cons_of_mem _ he)
    have hv : 0 ≤ v := h (k', v) (List.mem_cons_self _ _)
    intro entry he
    simp only [mapUpdate] at he
    split at he
    · rcases List.mem_cons.1 he with rfl | he
      · exact hf v hv
      · exact htl entry he
    · rcases List.mem_cons.1 he with rfl | he
      · exact hv
      · exact ih htl entry he

theorem tableNonneg_mapIndex {m : Table} (h : TableNonneg m) (k : String) :
    TableNonneg (mapIndex m k).2 :=
  tableNonneg_mapUpdate h k id (fun _ hv => hv)

theorem tableNonneg_evaporate {m : Table} (h : TableNonneg m) {r : ℚ} (hr : r ≤ 1) :
    TableNonneg (evaporate r m) := by
  intro entry he
  simp only [evaporate, List.mem_map] at he
  obtain ⟨a, ha, rfl⟩ := he
  exact mul_nonneg (h a ha) (by linarith)

theorem tableNonneg_reinforce (rn : Network) {pm td : Table} (hpm : TableNonneg pm)
    (htd : TableNonneg td) :
    TableNonneg (reinforce rn pm td).1 ∧ TableNonneg (reinforce rn pm td).2 := by
  induction rn generalizing pm td with
  | nil => exact ⟨hpm, htd⟩
  | cons hd tl ih =>
    simp only [reinforce]
    apply ih
    · apply tableNonneg_mapUpdate hpm
      intro v hv
      have ht : 0 ≤ (mapIndex td hd.1).1 := tableNonneg_mapGet htd _
      have : 0 ≤ 1 / (1 + (mapIndex td hd.1).1) := by positivity
      linarith
    · exact tableNonneg_mapIndex htd _

theorem readOnly_refl (s : Agent) : ReadOnly s s :=
  ⟨rfl, rfl, rfl, rfl, rfl, fun _ => rfl, fun _ => rfl, id, id⟩

theorem readOnly_trans {s s1 s2 : Agent} (h1 : ReadOnly s s1) (h2 : ReadOnly s1 s2) :
    ReadOnly s s2 :=
  ⟨h2.evaporationRate.trans h1.evaporationRate, h2.alpha.trans h1.alpha,
    h2.beta.trans h1.beta, h2.numAnts.trans h1.numAnts, h2.roadNetwork.trans h1.roadNetwork,
    fun e => (h2.pheromone e).trans (h1.pheromone e),
    fun e => (h2.traffic e).trans (h1.traffic e),
    fun h => h2.pheromoneNonneg (h1.pheromoneNonneg h),
    fun h => h2.trafficNonneg (h1.trafficNonneg h)⟩

theorem readOnly_index (s : Agent) (k : String) :
    ReadOnly s { s with pheromoneMatrix := (mapIndex s.pheromoneMatrix k).2,
                        trafficDensity := (mapIndex s.trafficDensity k).2 } :=
  ⟨rfl, rfl, rfl, rfl, rfl, fun e => mapGet_mapIndex _ k e, fun e => mapGet_mapIndex _ k e,
    fun h => tableNonneg_mapIndex h k, fun h => tableNonneg_mapIndex h k⟩

theorem readOnly_rng (s : Agent) (g : Nat → ℚ → ℚ → ℚ) : ReadOnly s { s with rng := g } :=
  ⟨rfl, rfl, rfl, rfl, rfl, fun _ => rfl, fun _ => rfl, id, id⟩

theorem readOnly_calculatePathQuality (s : Agent) (current next : String) :
    ReadOnly s (calculatePathQuality s current next).2 :=
  readOnly_index s current

theorem readOnly_probabilityLoop (pow : ℚ → ℚ → ℚ) (segs : List RouteSegment) (s : Agent)
    (ps : List ℚ) (t : ℚ) : ReadOnly s (probabilityLoop pow segs s ps t).2.2 := by
  induction segs generalizing s ps t with
  | nil => exact readOnly_refl s
  | cons hd tl ih =>
    simp only [probabilityLoop]
    exact readOnly_trans (readOnly_index s hd.edgeId) (ih _ _ _)

theorem readOnly_selectNextEdge (pow : ℚ → ℚ → ℚ) (s : Agent) (segs : List RouteSegment) :
    ReadOnly s (selectNextEdge pow s segs).2 := by
  cases segs with
  | nil => exact readOnly_refl s
  | cons hd tl =>
    have h := readOnly_trans (readOnly_probabilityLoop pow (hd :: tl) s [] 0)
      (readOnly_rng _ (fun k => (probabilityLoop pow (hd :: tl) s [] 0).2.2.rng (k + 1)))
    simp only [selectNextEdge]
    split <;> exact h

theorem readOnly_whileLoop (pow : ℚ → ℚ → ℚ) (destination : String) (fuel : Nat) (s : Agent)
    (current : String) (currentPath : List String) (pathQuality : ℚ) (run : Run)
    (h : whileLoop pow destination fuel s current currentPath pathQuality = some run) :
    ReadOnly s run.agent := by
  induction fuel generalizing s current currentPath pathQuality with
  | zero => simp [whileLoop] at h
  | succ n ih =>
    simp only [whileLoop] at h
    split at h
    · cases h; exact readOnly_refl s
    · split at h
      · cases h; exact readOnly_refl s
      · cases h; exact readOnly_refl s
      · rename_i segment segments _
        split at h
        · cases h; exact readOnly_selectNextEdge pow s _
        · exact readOnly_trans (readOnly_trans (readOnly_selectNextEdge pow s _)
            (readOnly_calculatePathQuality _ _ _)) (ih _ _ _ _ h)

theorem readOnly_antLoop (pow : ℚ → ℚ → ℚ) (fuel : Nat) (start destination : String)
    (n : Nat) (s : Agent) (bestPath : List String) (bestQuality : ℚ)
    (r : Agent × List String × ℚ)
    (h : antLoop pow fuel start destination n s bestPath bestQuality = some r) :
    ReadOnly s r.1 := by
  induction n generalizing s bestPath bestQuality with
  | zero =>
    simp only [antLoop, Option.some.injEq] at h
    subst h
    exact readOnly_refl s
  | succ n ih =>
    simp only [antLoop] at h
    split at h
    · cases h
    · rename_i run hrun
      have h1 := readOnly_whileLoop pow destination fuel s start [] 0 run hrun
      split at h
      · exact readOnly_trans h1 (ih _ _ _ h)
      · exact readOnly_trans h1 (ih _ _ _ h)

/-! ## The pheromone update -/

/-- C1. One call of `updatePheromones` leaves every edge `e` with
`pheromone[e] * (1 - evaporationRate)` plus `1 / (1 + trafficDensity[e])` when `e` is a key
of `roadNetwork` (keys of a `std::map` are distinct), a missing entry reading as `0`; hence
a key of `roadNetwork` that is absent from the pheromone table ends with exactly
`1 / (1 + trafficDensity[e])`, and an edge that is no key of `roadNetwork` is only
evaporated. -/
theorem updatePheromones_formula (s : Agent) (hrn : (mapKeys s.roadNetwork).Nodup)
    (e : String) :
    mapGet (updatePheromones s).pheromoneMatrix e
        = mapGet s.pheromoneMatrix e * (1 - s.evaporationRate)
          + (if e ∈ mapKeys s.roadNetwork then 1 / (1 + mapGet s.trafficDensity e) else 0)
      ∧ (e ∈ mapKeys s.roadNetwork → e ∉ mapKeys s.pheromoneMatrix →
          mapGet (updatePheromones s).pheromoneMatrix e = 1 / (1 + mapGet s.trafficDensity e))
      ∧ (e ∉ mapKeys s.roadNetwork →
          mapGet (updatePheromones s).pheromoneMatrix e
            = mapGet s.pheromoneMatrix e * (1 - s.evaporationRate)) := by
  have main : mapGet (updatePheromones s).pheromoneMatrix e
        = mapGet s.pheromoneMatrix e * (1 - s.evaporationRate)
          + (if e ∈ mapKeys s.roadNetwork then 1 / (1 + mapGet s.trafficDensity e) else 0) := by
    simp only [updatePheromones]
    rw [(mapGet_reinforce _ _ _ e).1, mapGet_evaporate]
    by_cases h : e ∈ mapKeys s.roadNetwork
    · rw [List.count_eq_one_of_mem hrn h, if_pos h]
      simp
    · rw [List.count_eq_zero_of_not_mem h, if_neg h]
      simp
  refine ⟨main, ?_, ?_⟩
  · intro hin hout
    rw [main, if_pos hin, mapGet_of_find_none _ _ ((mapFind_eq_none_iff _ _).2 hout)]
    simp
  · intro hout
    rw [main, if_neg hout]
    simp

/-- Witness for C1 on the chain topology, at edge `X` of a fresh agent. -/
theorem updatePheromones_formula_witness :
    (mapKeys chainAgent.roadNetwork).Nodup
      ∧ mapGet (updatePheromones chainAgent).pheromoneMatrix "X"
          = mapGet chainAgent.pheromoneMatrix "X" * (1 - chainAgent.evaporationRate)
            + (if "X" ∈ mapKeys chainAgent.roadNetwork
                then 1 / (1 + mapGet chainAgent.trafficDensity "X") else 0) :=
  ⟨by decide, (updatePheromones_formula chainAgent (by decide) "X").1⟩

/-! ## Non-negativity of the pheromone table -/

theorem updatePheromones_nonneg (s : Agent) (hr : s.evaporationRate ≤ 1)
    (hpm : TableNonneg s.pheromoneMatrix) (htd : TableNonneg s.trafficDensity) :
    TableNonneg (updatePheromones s).pheromoneMatrix
      ∧ TableNonneg (updatePheromones s).trafficDensity :=
  tableNonneg_reinforce s.roadNetwork (tableNonneg_evaporate hpm hr) htd

theorem applyOp_nonneg (pow : ℚ → ℚ → ℚ) (s s' : Agent) (op : Op) (hop : op.Admissible)
    (hr : s.evaporationRate ≤ 1) (hpm : TableNonneg s.pheromoneMatrix)
    (htd : TableNonneg s.trafficDensity) (h : applyOp pow s op = some s') :
    s'.evaporationRate ≤ 1 ∧ TableNonneg s'.pheromoneMatrix
      ∧ TableNonneg s'.trafficDensity := by
  cases op with
  | updateTrafficDensity edge density =>
    simp only [applyOp, Option.some.injEq] at h
    subst h
    exact ⟨hr, hpm, tableNonneg_mapUpdate htd edge _ (fun _ _ => hop)⟩
  | updatePheromones =>
    simp only [applyOp, Option.some.injEq] at h
    subst h
    exact ⟨hr, updatePheromones_nonneg s hr hpm htd⟩
  | findOptimalPath fuel start destination =>
    simp only [applyOp, findOptimalPath] at h
    split at h
    · cases h
    · rename_i r hr'
      split at hr'
      · cases hr'
      · rename_i r1 hr1
        have hro := readOnly_antLoop pow fuel start destination _ s [] (-1) r1 hr1
        simp only [Option.some.injEq] at hr' h
        subst hr'
        subst h
        have hr2 : r1.1.evaporationRate ≤ 1 := by rw [hro.evaporationRate]; exact hr
        exact ⟨hr2, updatePheromones_nonneg r1.1 hr2 (hro.pheromoneNonneg hpm)
          (hro.trafficNonneg htd)⟩

/-- C2. Starting from empty signal tables with `evaporationRate` in `[0, 1]`, after every
finite sequence of `updateTrafficDensity` calls with non-negative densities,
`updatePheromones` calls and returning `findOptimalPath` calls, every value stored in the
pheromone table is non-negative (each prefix of a sequence is itself such a sequence, so
this holds after each operation). -/
theorem pheromone_never_negative (pow : ℚ → ℚ → ℚ) (ops : List Op) (s s' : Agent)
    (hpm : s.pheromoneMatrix = []) (htd : s.trafficDensity = [])
    (hrate : 0 ≤ s.evaporationRate ∧ s.evaporationRate ≤ 1)
    (hops : ∀ op ∈ ops, op.Admissible) (hrun : applyOps pow ops s = some s') :
    TableNonneg s'.pheromoneMatrix := by
  have key : ∀ (ops : List Op) (s : Agent), (∀ op ∈ ops, op.Admissible) →
      s.evaporationRate ≤ 1 → TableNonneg s.pheromoneMatrix → TableNonneg s.trafficDensity →
      applyOps pow ops s = some s' → TableNonneg s'.pheromoneMatrix := by
    intro ops
    induction ops with
    | nil =>
      intro s _ _ hp _ h
      simp only [applyOps, Option.some.injEq] at h
      subst h
      exact hp
    | cons op rest ih =>
      intro s hadm hr hp ht h
      simp only [applyOps] at h
      split at h
      · cases h
      · rename_i s1 hs1
        obtain ⟨hr1, hp1, ht1⟩ :=
          applyOp_nonneg pow s s1 op (hadm op (List.mem_cons_self _ _)) hr hp ht hs1
        exact ih s1 (fun o ho => hadm o (List.mem_cons_of_mem _ ho)) hr1 hp1 ht1 h
  exact key ops s hops hrate.2 (hpm ▸ tableNonneg_nil) (htd ▸ tableNonneg_nil) hrun

/-- Witness for C2: the three kinds of operation applied to a fresh agent on the chain. -/
theorem pheromone_never_negative_witness :
    TableNonneg sampleFinal.pheromoneMatrix :=
  pheromone_never_negative unitPow sampleOps chainAgent sampleFinal rfl rfl
    (by norm_num [chainAgent])
    (by
      intro op hop
      simp only [sampleOps, List.mem_cons, List.mem_singleton, List.not_mem_nil,
        or_false] at hop
      rcases hop with rfl | rfl | rfl
      · show (0 : ℚ) ≤ 5
        norm_num
      · trivial
      · trivial)
    (by
      simp [sampleOps, sampleFinal, applyOps, applyOp, findOptimalPath, antLoop, whileLoop,
        selectNextEdge, probabilityLoop, selectionLoop, calculatePathQuality, chainAgent,
        chainNetwork, mapFind, mapIndex, mapGet, mapUpdate, unitPow, updateTrafficDensity,
        updatePheromones, evaporate, reinforce]
      norm_num)

/-! ## The edge selector -/

theorem selectionWeight_readOnly (pow : ℚ → ℚ → ℚ) {s s' : Agent} (h : ReadOnly s s')
    (e : String) : selectionWeight pow s' e = selectionWeight pow s e := by
  simp only [selectionWeight, h.pheromone, h.traffic, h.alpha, h.beta]

theorem probabilityLoop_rng (pow : ℚ → ℚ → ℚ) (segs : List RouteSegment) (s : Agent)
    (ps : List ℚ) (t : ℚ) : (probabilityLoop pow segs s ps t).2.2.rng = s.rng := by
  induction segs generalizing s ps t with
  | nil => rfl
  | cons hd tl ih =>
    simp only [probabilityLoop]
    rw [ih]

theorem probabilityLoop_values (pow : ℚ → ℚ → ℚ) (segs : List RouteSegment) (s : Agent)
    (ps : List ℚ) (t : ℚ) :
    (probabilityLoop pow segs s ps t).1
        = ps ++ segs.map (fun c => selectionWeight pow s c.edgeId)
      ∧ (probabilityLoop pow segs s ps t).2.1 = t + totalWeight pow s segs := by
  induction segs generalizing s ps t with
  | nil => simp [probabilityLoop, totalWeight]
  | cons hd tl ih =>
    simp only [probabilityLoop]
    obtain ⟨h1, h2⟩ := ih
      { s with pheromoneMatrix := (mapIndex s.pheromoneMatrix hd.edgeId).2,
               trafficDensity := (mapIndex s.trafficDensity hd.edgeId).2 }
      (ps ++ [pow (mapIndex s.pheromoneMatrix hd.edgeId).1 s.alpha
        * pow (1 / (1 + (mapIndex s.trafficDensity hd.edgeId).1)) s.beta])
      (t + pow (mapIndex s.pheromoneMatrix hd.edgeId).1 s.alpha
        * pow (1 / (1 + (mapIndex s.trafficDensity hd.edgeId).1)) s.beta)
    have hw : ∀ e, selectionWeight pow
        { s with pheromoneMatrix := (mapIndex s.pheromoneMatrix hd.edgeId).2,
                 trafficDensity := (mapIndex s.trafficDensity hd.edgeId).2 } e
        = selectionWeight pow s e :=
      selectionWeight_readOnly pow (readOnly_index s hd.edgeId)
    have hhd : pow (mapIndex s.pheromoneMatrix hd.edgeId).1 s.alpha
        * pow (1 / (1 + (mapIndex s.trafficDensity hd.edgeId).1)) s.beta
        = selectionWeight pow s hd.edgeId := rfl
    rw [h1, h2, hhd]
    simp only [totalWeight, hw, List.map_cons, List.sum_cons, List.append_assoc,
      List.singleton_append, true_and]
    ring

theorem selectionLoop_spec (random : ℚ) (w : String → ℚ) (segs : List RouteSegment)
    (sum : ℚ) :
    (∀ e, selectionLoop random segs (segs.map (fun c => w c.edgeId)) sum = some e →
        ∃ i c, segs[i]? = some c ∧ e = c.edgeId
          ∧ random ≤ sum + ((segs.take (i + 1)).map (fun c => w c.edgeId)).sum
          ∧ ∀ j, j < i → sum + ((segs.take (j + 1)).map (fun c => w c.edgeId)).sum < random)
      ∧ (selectionLoop random segs (segs.map (fun c => w c.edgeId)) sum = none →
        ∀ i, i < segs.length →
          sum + ((segs.take (i + 1)).map (fun c => w c.edgeId)).sum < random) := by
  induction segs generalizing sum with
  | nil =>
    refine ⟨?_, ?_⟩
    · intro e h
      simp [selectionLoop] at h
    · intro _ i hi
      simp at hi
  | cons hd tl ih =>
    simp only [List.map_cons, selectionLoop]
    by_cases hge : sum + w hd.edgeId ≥ random
    · rw [if_pos hge]
      refine ⟨?_, ?_⟩
      · intro e he
        simp only [Option.some.injEq] at he
        refine ⟨0, hd, by simp, he.symm, ?_, ?_⟩
        · simpa using hge
        · intro j hj
          omega
      · intro h
        cases h
    · rw [if_neg hge]
      obtain ⟨ih1, ih2⟩ := ih (sum + w hd.edgeId)
      have hlt : sum + w hd.edgeId < random := lt_of_not_ge hge
      refine ⟨?_, ?_⟩
      · intro e he
        obtain ⟨i, c, hc, hec, hle, hbefore⟩ := ih1 e he
        refine ⟨i + 1, c, by simpa using hc, hec, ?_, ?_⟩
        · simp only [List.take_succ_cons, List.map_cons, List.sum_cons]
          linarith
        · intro j hj
          cases j with
          | zero => simpa using hlt
          | succ j =>
            have := hbefore j (by omega)
            simp only [List.take_succ_cons, List.map_cons, List.sum_cons]
            linarith
      · intro hnone i hi
        cases i with
        | zero => simpa using hlt
        | succ i =>
          have := ih2 hnone i (by simpa using hi)
          simp only [List.take_succ_cons, List.map_cons, List.sum_cons]
          linarith

theorem selectNextEdge_fst (pow : ℚ → ℚ → ℚ) (s : Agent) (first : RouteSegment)
    (rest : List RouteSegment) :
    (selectNextEdge pow s (first :: rest)).1
      = (selectionLoop (s.rng 0 0 (totalWeight pow s (first :: rest))) (first :: rest)
          ((first :: rest).map (fun c => selectionWeight pow s c.edgeId)) 0).getD
          first.edgeId := by
  obtain ⟨h1, h2⟩ := probabilityLoop_values pow (first :: rest) s [] 0
  have h3 := probabilityLoop_rng pow (first :: rest) s [] 0
  simp only [selectNextEdge]
  rw [h1, h2, h3]
  simp only [List.nil_append, zero_add]
  split
  · rename_i edge hedge
    rw [hedge]; rfl
  · rename_i hnone
    rw [hnone]; rfl

/-- C3. On a non-empty candidate list `selectNextEdge` draws `r = uniform(0, total)` with
`total` the sum of the weights `pheromone[e]^alpha * (1 / (1 + trafficDensity[e]))^beta`, and
returns the `edgeId` of the first candidate, in the given order, whose cumulative weight
reaches or exceeds `r`, or of the first candidate when no cumulative weight does; in both
cases the result is the `edgeId` of one of the candidates.  The random stream is arbitrary,
so `r` ranges over every value. -/
theorem selectNextEdge_spec (pow : ℚ → ℚ → ℚ) (s : Agent) (first : RouteSegment)
    (rest : List RouteSegment) :
    (selectNextEdge pow s (first :: rest)).1 ∈ (first :: rest).map RouteSegment.edgeId
      ∧ ((∃ i c, (first :: rest)[i]? = some c
            ∧ (selectNextEdge pow s (first :: rest)).1 = c.edgeId
            ∧ s.rng 0 0 (totalWeight pow s (first :: rest))
                ≤ cumulativeWeight pow s (first :: rest) i
            ∧ ∀ j, j < i → cumulativeWeight pow s (first :: rest) j
                < s.rng 0 0 (totalWeight pow s (first :: rest)))
          ∨ ((∀ i, i < (first :: rest).length → cumulativeWeight pow s (first :: rest) i
                < s.rng 0 0 (totalWeight pow s (first :: rest)))
            ∧ (selectNextEdge pow s (first :: rest)).1 = first.edgeId)) := by
  rw [selectNextEdge_fst]
  obtain ⟨hsome, hnone⟩ := selectionLoop_spec (s.rng 0 0 (totalWeight pow s (first :: rest)))
    (selectionWeight pow s) (first :: rest) 0
  cases hsel : selectionLoop (s.rng 0 0 (totalWeight pow s (first :: rest))) (first :: rest)
      ((first :: rest).map (fun c => selectionWeight pow s c.edgeId)) 0 with
  | none =>
    refine ⟨by simp, Or.inr ⟨?_, rfl⟩⟩
    intro i hi
    have := hnone hsel i hi
    simpa [cumulativeWeight, totalWeight] using this
  | some e =>
    obtain ⟨i, c, hc, hec, hle, hbefore⟩ := hsome e hsel
    refine ⟨?_, Or.inl ⟨i, c, hc, hec, ?_, ?_⟩⟩
    · simp only [Option.getD_some, hec]
      exact List.mem_map_of_mem _ (List.getElem?_mem hc)
    · simpa [cumulativeWeight, totalWeight] using hle
    · intro j hj
      simpa [cumulativeWeight, totalWeight] using hbefore j hj

theorem list_sum_eq_zero_of_nonneg (l : List ℚ) (hn : ∀ x ∈ l, 0 ≤ x) (h : l.sum = 0) :
    ∀ x ∈ l, x = 0 := by
  induction l with
  | nil =>
    intro x hx
    cases hx
  | cons a tl ih =>
    have ha : 0 ≤ a := hn a (List.mem_cons_self _ _)
    have htl : ∀ x ∈ tl, 0 ≤ x := fun x hx => hn x (List.mem_cons_of_mem _ hx)
    have hs : 0 ≤ tl.sum := List.sum_nonneg htl
    rw [List.sum_cons] at h
    intro x hx
    rcases List.mem_cons.1 hx with rfl | hx
    · linarith
    · exact ih htl (by linarith) x hx

theorem selectionWeight_nonneg (pow : ℚ → ℚ → ℚ) (hpow : ∀ x a, 0 ≤ x → 0 ≤ pow x a)
    (s : Agent) (hpm : TableNonneg s.pheromoneMatrix) (htd : TableNonneg s.trafficDensity)
    (e : String) : 0 ≤ selectionWeight pow s e := by
  have ht : 0 ≤ mapGet s.trafficDensity e := tableNonneg_mapGet htd e
  exact mul_nonneg (hpow _ _ (tableNonneg_mapGet hpm e)) (hpow _ _ (by positivity))

/-- C4. When the weights of a non-empty candidate list sum to `0`, the pheromone and traffic
values being non-negative (and `pow` non-negative on non-negative bases, as the library
function is), `selectNextEdge` returns the `edgeId` of the first candidate, whatever the
draw. -/
theorem selectNextEdge_zero_total (pow : ℚ → ℚ → ℚ) (hpow : ∀ x a, 0 ≤ x → 0 ≤ pow x a)
    (s : Agent) (hpm : TableNonneg s.pheromoneMatrix) (htd : TableNonneg s.trafficDensity)
    (first : RouteSegment) (rest : List RouteSegment)
    (htotal : totalWeight pow s (first :: rest) = 0) :
    (selectNextEdge pow s (first :: rest)).1 = first.edgeId := by
  have hzero : ∀ c ∈ first :: rest, selectionWeight pow s c.edgeId = 0 := by
    intro c hc
    apply list_sum_eq_zero_of_nonneg _ _ htotal
    · exact List.mem_map_of_mem _ hc
    · intro x hx
      obtain ⟨c', _, rfl⟩ := List.mem_map.1 hx
      exact selectionWeight_nonneg pow hpow s hpm htd _
  have hcum : ∀ i, ((List.take (i + 1) (first :: rest)).map
      (fun c => selectionWeight pow s c.edgeId)).sum = 0 := by
    intro i
    apply List.sum_eq_zero
    intro x hx
    obtain ⟨c, hc, rfl⟩ := List.mem_map.1 hx
    exact hzero c (List.mem_of_mem_take hc)
  rw [selectNextEdge_fst]
  obtain ⟨hsome, _⟩ := selectionLoop_spec (s.rng 0 0 (totalWeight pow s (first :: rest)))
    (selectionWeight pow s) (first :: rest) 0
  cases hsel : selectionLoop (s.rng 0 0 (totalWeight pow s (first :: rest))) (first :: rest)
      ((first :: rest).map (fun c => selectionWeight pow s c.edgeId)) 0 with
  | none => rfl
  | some e =>
    obtain ⟨i, c, hc, hec, hle, hbefore⟩ := hsome e hsel
    cases i with
    | zero =>
      simp only [List.getElem?_cons_zero, Option.some.injEq] at hc
      subst hc
      simp [hec]
    | succ i =>
      have h0 := hbefore 0 (Nat.succ_pos i)
      rw [hcum] at hle h0
      linarith

/-- Witness for C4: two candidates, all pheromone `0`, all traffic `0`, `alpha = beta = 1`. -/
theorem selectNextEdge_zero_total_witness :
    totalWeight unitPow chainAgent twoCandidates = 0
      ∧ (selectNextEdge unitPow chainAgent twoCandidates).1 = "Y" :=
  ⟨by simp [totalWeight, selectionWeight, twoCandidates, unitPow, chainAgent, mapGet, mapFind],
    selectNextEdge_zero_total unitPow (fun _ _ hx => hx) chainAgent tableNonneg_nil
      tableNonneg_nil ⟨"Y", 0, 0⟩ [⟨"Z", 0, 0⟩]
      (by simp [totalWeight, selectionWeight, unitPow, chainAgent, mapGet, mapFind])⟩

/-! ## The colony optimizer -/

theorem antLoop_eq_pickBest (pow : ℚ → ℚ → ℚ) (fuel : Nat) (start destination : String)
    (n : Nat) (s : Agent) (bestPath : List String) (bestQuality : ℚ) :
    antLoop pow fuel start destination n s bestPath bestQuality
      = match antRuns pow fuel start destination n s with
        | none => none
        | some r => some (r.2, pickBest destination r.1 bestPath bestQuality) := by
  induction n generalizing s bestPath bestQuality with
  | zero => simp [antLoop, antRuns, pickBest]
  | succ n ih =>
    simp only [antLoop, antRuns]
    cases hrun : whileLoop pow destination fuel s start [] 0 with
    | none => rfl
    | some run =>
      simp only
      split
      · rename_i hbetter
        rw [ih]
        cases antRuns pow fuel start destination n run.agent with
        | none => rfl
        | some r => simp [pickBest, hbetter]
      · rename_i hworse
        rw [ih]
        cases antRuns pow fuel start destination n run.agent with
        | none => rfl
        | some r => simp [pickBest, hworse]

theorem antRuns_length (pow : ℚ → ℚ → ℚ) (fuel : Nat) (start destination : String)
    (n : Nat) (s : Agent) (r : List Run × Agent)
    (h : antRuns pow fuel start destination n s = some r) : r.1.length = n := by
  induction n generalizing s r with
  | zero =>
    simp only [antRuns, Option.some.injEq] at h
    subst h
    rfl
  | succ n ih =>
    simp only [antRuns] at h
    split at h
    · cases h
    · rename_i run _
      split at h
      · cases h
      · rename_i r1 hr1
        simp only [Option.some.injEq] at h
        subst h
        simp [ih _ _ hr1]

theorem pickBest_spec (destination : String) (runs : List Run) (bestPath : List String)
    (bestQuality : ℚ) :
    ((∀ r ∈ runs, r.current = destination → r.pathQuality ≤ bestQuality)
        ∧ pickBest destination runs bestPath bestQuality = (bestPath, bestQuality))
      ∨ ∃ (i : Nat) (r : Run), runs[i]? = some r ∧ r.current = destination ∧ bestQuality < r.pathQuality
          ∧ pickBest destination runs bestPath bestQuality = (r.currentPath, r.pathQuality)
          ∧ ∀ (j : Nat) (r' : Run), runs[j]? = some r' → r'.current = destination →
              r'.pathQuality ≤ r.pathQuality ∧ (j < i → r'.pathQuality < r.pathQuality) := by
  induction runs generalizing bestPath bestQuality with
  | nil =>
    left
    exact ⟨fun r hr _ => (by cases hr), rfl⟩
  | cons run rest ih =>
    simp only [pickBest]
    by_cases hbetter : run.pathQuality > bestQuality ∧ run.current = destination
    · rw [if_pos hbetter]
      right
      rcases ih run.currentPath run.pathQuality with ⟨hnone, heq⟩ | ⟨i, r, hr, harr, hgt, heq, hmax⟩
      · refine ⟨0, run, by simp, hbetter.2, hbetter.1, heq, ?_⟩
        intro j r' hj harr'
        cases j with
        | zero =>
          simp only [List.getElem?_cons_zero, Option.some.injEq] at hj
          subst hj
          exact ⟨le_rfl, fun h => absurd h (Nat.lt_irrefl 0)⟩
        | succ j =>
          simp only [List.getElem?_cons_succ] at hj
          exact ⟨hnone r' (List.getElem?_mem hj) harr', fun h => absurd h (Nat.not_lt_zero _)⟩
      · refine ⟨i + 1, r, by rw [List.getElem?_cons_succ]; exact hr, harr, lt_trans hbetter.1 hgt, heq, ?_⟩
        intro j r' hj harr'
        cases j with
        | zero =>
          simp only [List.getElem?_cons_zero, Option.some.injEq] at hj
          subst hj
          exact ⟨le_of_lt hgt, fun _ => hgt⟩
        | succ j =>
          simp only [List.getElem?_cons_succ] at hj
          obtain ⟨h1, h2⟩ := hmax j r' hj harr'
          exact ⟨h1, fun h => h2 (Nat.lt_of_succ_lt_succ h)⟩
    · rw [if_neg hbetter]
      rcases ih bestPath bestQuality with ⟨hnone, heq⟩ | ⟨i, r, hr, harr, hgt, heq, hmax⟩
      · left
        refine ⟨?_, heq⟩
        intro r hr harr
        rcases List.mem_cons.1 hr with rfl | hr
        · by_contra hcon
          exact hbetter ⟨lt_of_not_ge hcon, harr⟩
        · exact hnone r hr harr
      · right
        refine ⟨i + 1, r, by rw [List.getElem?_cons_succ]; exact hr, harr, hgt, heq, ?_⟩
        intro j r' hj harr'
        cases j with
        | zero =>
          simp only [List.getElem?_cons_zero, Option.some.injEq] at hj
          subst hj
          have hle : run.pathQuality ≤ bestQuality := by
            by_contra hcon
            exact hbetter ⟨lt_of_not_ge hcon, harr'⟩
          exact ⟨le_of_lt (lt_of_le_of_lt hle hgt), fun _ => lt_of_le_of_lt hle hgt⟩
        | succ j =>
          simp only [List.getElem?_cons_succ] at hj
          obtain ⟨h1, h2⟩ := hmax j r' hj harr'
          exact ⟨h1, fun h => h2 (Nat.lt_of_succ_lt_succ h)⟩

theorem calculatePathQuality_nonneg (s : Agent) (hpm : TableNonneg s.pheromoneMatrix)
    (htd : TableNonneg s.trafficDensity) (current next : String) :
    0 ≤ (calculatePathQuality s current next).1 := by
  have hp : 0 ≤ mapGet s.pheromoneMatrix current := tableNonneg_mapGet hpm _
  have ht : 0 ≤ mapGet s.trafficDensity current := tableNonneg_mapGet htd _
  simp only [calculatePathQuality, mapIndex]
  positivity

theorem whileLoop_quality_nonneg (pow : ℚ → ℚ → ℚ) (destination : String) (fuel : Nat)
    (s : Agent) (current : String) (currentPath : List String) (pathQuality : ℚ) (run : Run)
    (hpm : TableNonneg s.pheromoneMatrix) (htd : TableNonneg s.trafficDensity)
    (hq : 0 ≤ pathQuality)
    (h : whileLoop pow destination fuel s current currentPath pathQuality = some run) :
    0 ≤ run.pathQuality := by
  induction fuel generalizing s current currentPath pathQuality with
  | zero => simp [whileLoop] at h
  | succ n ih =>
    simp only [whileLoop] at h
    split at h
    · cases h; exact hq
    · split at h
      · cases h; exact hq
      · cases h; exact hq
      · rename_i segment segments _
        split at h
        · cases h; exact hq
        · have hsel := readOnly_selectNextEdge pow s (segment :: segments)
          have hcalc := readOnly_calculatePathQuality
            (selectNextEdge pow s (segment :: segments)).2 current
            (selectNextEdge pow s (segment :: segments)).1
          have hqual := calculatePathQuality_nonneg
            (selectNextEdge pow s (segment :: segments)).2 (hsel.pheromoneNonneg hpm)
            (hsel.trafficNonneg htd) current (selectNextEdge pow s (segment :: segments)).1
          exact ih _ _ _ _ (hcalc.pheromoneNonneg (hsel.pheromoneNonneg hpm))
            (hcalc.trafficNonneg (hsel.trafficNonneg htd)) (add_nonneg hq hqual) h

theorem antRuns_quality_nonneg (pow : ℚ → ℚ → ℚ) (fuel : Nat) (start destination : String)
    (n : Nat) (s : Agent) (r : List Run × Agent)
    (hpm : TableNonneg s.pheromoneMatrix) (htd : TableNonneg s.trafficDensity)
    (h : antRuns pow fuel start destination n s = some r) :
    ∀ run ∈ r.1, 0 ≤ run.pathQuality := by
  induction n generalizing s r with
  | zero =>
    simp only [antRuns, Option.some.injEq] at h
    subst h
    intro run hrun
    cases hrun
  | succ n ih =>
    simp only [antRuns] at h
    split at h
    · cases h
    · rename_i run0 hrun0
      split at h
      · cases h
      · rename_i r1 hr1
        simp only [Option.some.injEq] at h
        subst h
        have hro := readOnly_whileLoop pow destination fuel s start [] 0 run0 hrun0
        intro run hrun
        rcases List.mem_cons.1 hrun with rfl | hrun
        · exact whileLoop_quality_nonneg pow destination fuel s start [] 0 _ hpm htd le_rfl
            hrun0
        · exact ih _ _ (hro.pheromoneNonneg hpm) (hro.trafficNonneg htd) hr1 run hrun

/-! ## The pheromone update at the end of `findOptimalPath` -/

theorem mapGet_updatePheromones (s : Agent) (e : String) :
    mapGet (updatePheromones s).pheromoneMatrix e
      = mapGet s.pheromoneMatrix e * (1 - s.evaporationRate)
        + ((mapKeys s.roadNetwork).count e : ℚ) * (1 / (1 + mapGet s.trafficDensity e)) := by
  simp only [updatePheromones]
  rw [(mapGet_reinforce _ _ _ e).1, mapGet_evaporate]

theorem mapGet_updatePheromones_readOnly {s s1 : Agent} (h : ReadOnly s s1) (e : String) :
    mapGet (updatePheromones s1).pheromoneMatrix e
      = mapGet (updatePheromones s).pheromoneMatrix e := by
  rw [mapGet_updatePheromones, mapGet_updatePheromones, h.pheromone, h.traffic,
    h.evaporationRate, h.roadNetwork]

/-- C6. Whenever `findOptimalPath` returns, whether or not a run reached the destination,
the pheromone value of every edge afterwards equals the value that exactly one application
of `updatePheromones` to the tables held before the call produces, a missing entry reading
as `0`. -/
theorem findOptimalPath_updates_once (pow : ℚ → ℚ → ℚ) (fuel : Nat) (s : Agent)
    (start destination : String) (path : List String) (s' : Agent)
    (h : findOptimalPath pow fuel s start destination = some (path, s')) (e : String) :
    mapGet s'.pheromoneMatrix e = mapGet (updatePheromones s).pheromoneMatrix e := by
  simp only [findOptimalPath] at h
  split at h
  · cases h
  · rename_i r hr
    simp only [Option.some.injEq, Prod.mk.injEq] at h
    rw [← h.2]
    exact mapGet_updatePheromones_readOnly
      (readOnly_antLoop pow fuel start destination _ s [] (-1) r hr) e

/-- Witness for C6, scenario B: on the chain topology with empty tables, routing from `X` to
the unreachable `W` returns the empty path, and afterwards the pheromone of `X` and of `Y`
is `1`. -/
theorem findOptimalPath_updates_once_witness :
    findOptimalPath unitPow 5 chainAgent "X" "W" = some ([], chainFinal)
      ∧ mapGet chainFinal.pheromoneMatrix "X"
          = mapGet (updatePheromones chainAgent).pheromoneMatrix "X"
      ∧ mapGet chainFinal.pheromoneMatrix "X" = 1
      ∧ mapGet chainFinal.pheromoneMatrix "Y" = 1 :=
  have hB : findOptimalPath unitPow 5 chainAgent "X" "W" = some ([], chainFinal) := by
    simp [chainFinal, findOptimalPath, antLoop, whileLoop, selectNextEdge, probabilityLoop,
      selectionLoop, calculatePathQuality, chainAgent, chainNetwork, mapFind, mapIndex,
      mapGet, mapUpdate, unitPow, updatePheromones, evaporate, reinforce]
  ⟨hB, findOptimalPath_updates_once unitPow 5 chainAgent "X" "W" [] chainFinal hB "X",
    by simp [chainFinal, mapGet, mapFind], by simp [chainFinal, mapGet, mapFind]⟩

/-! ## The end-to-end scenarios on the chain topology -/

theorem selectNextEdge_singleton (pow : ℚ → ℚ → ℚ) (s : Agent) (c : RouteSegment) :
    selectNextEdge pow s [c]
      = (c.edgeId, { s with pheromoneMatrix := (mapIndex s.pheromoneMatrix c.edgeId).2,
                            trafficDensity := (mapIndex s.trafficDensity c.edgeId).2,
                            rng := fun k => s.rng (k + 1) }) := by
  simp only [selectNextEdge, probabilityLoop, selectionLoop]
  split
  · rename_i edge h
    split at h
    · simp only [Option.some.injEq] at h
      rw [h]
    · cases h
  · rfl

theorem whileLoop_scenario (pow : ℚ → ℚ → ℚ) (rate : ℚ) (rng : Nat → ℚ → ℚ → ℚ)
    (fuel : Nat) (destination : String) (hd : destination = "Z" ∨ destination = "W") :
    whileLoop pow destination (fuel + 3) (scenarioAgent rate rng) "X" [] 0
      = some ⟨scenarioAfterRun rate rng, "Z", ["Y", "Z"], 0⟩ := by
  rcases hd with rfl | rfl <;>
  simp [whileLoop, selectNextEdge_singleton, calculatePathQuality, scenarioAgent,
    scenarioAfterRun, chainNetwork, mapFind, mapIndex, mapGet, mapUpdate]

theorem updatePheromones_scenarioAfterRun (rate : ℚ) (rng : Nat → ℚ → ℚ → ℚ) :
    mapGet (updatePheromones (scenarioAfterRun rate rng)).pheromoneMatrix "X" = 1
      ∧ mapGet (updatePheromones (scenarioAfterRun rate rng)).pheromoneMatrix "Y" = 1 := by
  simp [updatePheromones, evaporate, reinforce, scenarioAfterRun, scenarioAgent, chainNetwork,
    mapFind, mapIndex, mapGet, mapUpdate]

/-- Scenario B for every evaporation rate, `pow` and random stream: routing from `X` to the
unreachable `W` returns the empty path and leaves pheromone `1` on `X` and on `Y`. -/
theorem findOptimalPath_scenarioB (pow : ℚ → ℚ → ℚ) (rate : ℚ) (rng : Nat → ℚ → ℚ → ℚ)
    (fuel : Nat) :
    findOptimalPath pow (fuel + 3) (scenarioAgent rate rng) "X" "W"
        = some ([], updatePheromones (scenarioAfterRun rate rng))
      ∧ mapGet (updatePheromones (scenarioAfterRun rate rng)).pheromoneMatrix "X" = 1
      ∧ mapGet (updatePheromones (scenarioAfterRun rate rng)).pheromoneMatrix "Y" = 1 := by
  refine ⟨?_, updatePheromones_scenarioAfterRun rate rng⟩
  have hn : (scenarioAgent rate rng).numAnts.toNat = 1 := rfl
  simp [findOptimalPath, hn, antLoop, whileLoop_scenario pow rate rng fuel "W" (Or.inr rfl)]

/-- C7. End-to-end scenario A: with `roadNetwork = {X -> [Y], Y -> [Z]}`, empty tables,
`alpha = beta = 1`, `numAnts = 1`, every evaporation rate, every `pow` and every random
stream, `findOptimalPath(X, Z)` makes one run, which ends at `Z` with path `[Y, Z]` and
accumulated quality `0`; it returns `[Y, Z]`, and afterwards `pheromone[X] = 1` and
`pheromone[Y] = 1`. -/
theorem findOptimalPath_scenarioA (pow : ℚ → ℚ → ℚ) (rate : ℚ) (rng : Nat → ℚ → ℚ → ℚ)
    (fuel : Nat) :
    antRuns pow (fuel + 3) "X" "Z" (scenarioAgent rate rng).numAnts.toNat
        (scenarioAgent rate rng)
        = some ([⟨scenarioAfterRun rate rng, "Z", ["Y", "Z"], 0⟩], scenarioAfterRun rate rng)
      ∧ findOptimalPath pow (fuel + 3) (scenarioAgent rate rng) "X" "Z"
        = some (["Y", "Z"], updatePheromones (scenarioAfterRun rate rng))
      ∧ mapGet (updatePheromones (scenarioAfterRun rate rng)).pheromoneMatrix "X" = 1
      ∧ mapGet (updatePheromones (scenarioAfterRun rate rng)).pheromoneMatrix "Y" = 1 := by
  have hn : (scenarioAgent rate rng).numAnts.toNat = 1 := rfl
  have hw := whileLoop_scenario pow rate rng fuel "Z" (Or.inl rfl)
  refine ⟨?_, ?_, updatePheromones_scenarioAfterRun rate rng⟩
  · simp [hn, antRuns, hw]
  · simp [findOptimalPath, hn, antLoop, hw]

/-! ## Agent construction -/

/-- C8, counterexample. The configuration of scenario D, `evaporationRate = 1.5`, is accepted:
`initialize` returns normally and the agent holds `1.5`; so is `numAnts = 0`. -/
theorem initialise_accepts_invalid :
    initialise (frameworkOf scenarioDParameters) chainAgent 0
        = Except.ok { chainAgent with evaporationRate := 3 / 2 }
      ∧ initialise (frameworkOf noAntsParameters) chainAgent 0
        = Except.ok { chainAgent with numAnts := 0 } := by
  constructor <;> rfl

/-- C8, amended. `initialize` at stage `0` checks nothing: whenever the framework calls it
makes return, it returns normally for every configuration, and the agent holds
`evaporationRate`, `alpha` and `beta` exactly as configured and, as `numAnts`, the configured
integer narrowed to `int`, which is the configured integer itself when that fits the 32-bit
range; no value is clamped, and the tables and the topology are untouched. -/
theorem initialise_stores_parameters (env : Framework) (s : Agent) (e a b : ℚ) (n : Int)
    (hbase : env.baseInitialize 0 = Except.ok ())
    (he : env.doubleValue "evaporationRate" = Except.ok e)
    (ha : env.doubleValue "alpha" = Except.ok a)
    (hb : env.doubleValue "beta" = Except.ok b)
    (hn : env.intValue "numAnts" = Except.ok n)
    (hmob : env.mobilityAccess = Except.ok ())
    (hsched : env.scheduleAt = Except.ok ()) :
    ∃ s', initialise env s 0 = Except.ok s'
      ∧ s'.evaporationRate = e ∧ s'.alpha = a ∧ s'.beta = b
      ∧ s'.numAnts = toInt32 n
      ∧ (-2147483648 ≤ n → n < 2147483648 → s'.numAnts = n)
      ∧ s'.roadNetwork = s.roadNetwork ∧ s'.pheromoneMatrix = s.pheromoneMatrix
      ∧ s'.trafficDensity = s.trafficDensity := by
  refine ⟨{ s with evaporationRate := e, alpha := a, beta := b, numAnts := toInt32 n },
    ?_, rfl, rfl, rfl, rfl, ?_, rfl, rfl, rfl⟩
  · simp only [initialise, hbase, he, ha, hb, hn, hmob, hsched, if_true]
    rfl
  · intro hlo hhi
    show toInt32 n = n
    unfold toInt32
    omega

theorem initialise_fails_of_missing (env : Framework) (s : Agent) (msg : String)
    (hbase : env.baseInitialize 0 = Except.ok ())
    (he : env.doubleValue "evaporationRate" = Except.error msg) :
    initialise env s 0 = Except.error msg := by
  simp only [initialise, hbase, he, if_true]
  rfl

/-- Witness for the amended C8: the configuration `numAnts = 2^32 + 1` is accepted, and the
agent holds `numAnts = 1`. -/
theorem initialise_stores_parameters_witness :
    (∃ s', initialise (frameworkOf wideParameters) chainAgent 0 = Except.ok s'
      ∧ s'.evaporationRate = 1 / 2 ∧ s'.alpha = 1 ∧ s'.beta = 1
      ∧ s'.numAnts = toInt32 4294967297
      ∧ (-2147483648 ≤ (4294967297 : Int) → (4294967297 : Int) < 2147483648 →
          s'.numAnts = 4294967297)
      ∧ s'.roadNetwork = chainAgent.roadNetwork
      ∧ s'.pheromoneMatrix = chainAgent.pheromoneMatrix
      ∧ s'.trafficDensity = chainAgent.trafficDensity)
      ∧ toInt32 4294967297 = 1 :=
  ⟨initialise_stores_parameters (frameworkOf wideParameters) chainAgent (1 / 2) 1 1
    4294967297 rfl rfl rfl rfl rfl rfl rfl, by decide⟩

/-! ## Termination of the runs -/

theorem selectNextEdge_mem (pow : ℚ → ℚ → ℚ) (s : Agent) (first : RouteSegment)
    (rest : List RouteSegment) :
    ∃ c ∈ first :: rest, (selectNextEdge pow s (first :: rest)).1 = c.edgeId := by
  rw [selectNextEdge_fst]
  obtain ⟨hsome, _⟩ := selectionLoop_spec (s.rng 0 0 (totalWeight pow s (first :: rest)))
    (selectionWeight pow s) (first :: rest) 0
  cases hsel : selectionLoop (s.rng 0 0 (totalWeight pow s (first :: rest))) (first :: rest)
      ((first :: rest).map (fun c => selectionWeight pow s c.edgeId)) 0 with
  | none => exact ⟨first, List.mem_cons_self _ _, rfl⟩
  | some e =>
    obtain ⟨i, c, hc, hec, _⟩ := hsome e hsel
    exact ⟨c, List.getElem?_mem hc, hec⟩

theorem whileLoop_cycle (pow : ℚ → ℚ → ℚ) (fuel : Nat) (s : Agent) (current : String)
    (currentPath : List String) (pathQuality : ℚ) (hrn : s.roadNetwork = cycleNetwork)
    (hcur : current = "X" ∨ current = "Y") :
    whileLoop pow "W" fuel s current currentPath pathQuality = none := by
  induction fuel generalizing s current currentPath pathQuality with
  | zero => rfl
  | succ n ih =>
    rcases hcur with rfl | rfl
    · simp only [whileLoop, hrn, cycleNetwork, mapFind, selectNextEdge_singleton]
      simp only [selectNextEdge_singleton, String.reduceEq, if_false, if_true]
      exact ih _ _ _ _ hrn (Or.inr rfl)
    · simp only [whileLoop, hrn, cycleNetwork, mapFind, selectNextEdge_singleton]
      simp only [selectNextEdge_singleton, String.reduceEq, if_false, if_true]
      exact ih _ _ _ _ hrn (Or.inl rfl)

/-- C9, counterexample. On the cyclic topology `X -> [Y]`, `Y -> [X]` the call
`findOptimalPath(X, W)` does not return within any number of steps: the run alternates
between `X` and `Y`, and the loop has no step bound. -/
theorem findOptimalPath_cycle_diverges :
    ¬ ∃ fuel, (findOptimalPath unitPow fuel cycleAgent "X" "W").isSome = true := by
  rintro ⟨fuel, h⟩
  have hn : cycleAgent.numAnts.toNat = 1 := rfl
  have hw := whileLoop_cycle unitPow fuel cycleAgent "X" [] 0 rfl (Or.inl rfl)
  simp [findOptimalPath, hn, antLoop, hw] at h

theorem whileLoop_terminates (pow : ℚ → ℚ → ℚ) (destination : String) (rank : String → Nat)
    (rn : Network)
    (hrank : ∀ e segs c, mapFind e rn = some segs → c ∈ segs → rank c.edgeId < rank e)
    (fuel : Nat) (s : Agent) (current : String) (currentPath : List String)
    (pathQuality : ℚ) (hrn : s.roadNetwork = rn) (hfuel : rank current < fuel) :
    ∃ run, whileLoop pow destination fuel s current currentPath pathQuality = some run := by
  induction fuel generalizing s current currentPath pathQuality with
  | zero => exact absurd hfuel (Nat.not_lt_zero _)
  | succ n ih =>
    simp only [whileLoop]
    split
    · exact ⟨_, rfl⟩
    · split
      · exact ⟨_, rfl⟩
      · exact ⟨_, rfl⟩
      · rename_i segment segments hfind
        split
        · exact ⟨_, rfl⟩
        · obtain ⟨c, hc, hsel⟩ := selectNextEdge_mem pow s segment segments
          have hlt : rank (selectNextEdge pow s (segment :: segments)).1 < rank current := by
            rw [hsel]
            exact hrank current _ c (hrn ▸ hfind) hc
          apply ih
          · rw [(readOnly_calculatePathQuality _ _ _).roadNetwork,
              (readOnly_selectNextEdge pow s _).roadNetwork, hrn]
          · omega

theorem antLoop_terminates (pow : ℚ → ℚ → ℚ) (start destination : String)
    (rank : String → Nat) (rn : Network)
    (hrank : ∀ e segs c, mapFind e rn = some segs → c ∈ segs → rank c.edgeId < rank e)
    (fuel : Nat) (hfuel : rank start < fuel) (n : Nat) (s : Agent) (bestPath : List String)
    (bestQuality : ℚ) (hrn : s.roadNetwork = rn) :
    ∃ r, antLoop pow fuel start destination n s bestPath bestQuality = some r := by
  induction n generalizing s bestPath bestQuality with
  | zero => exact ⟨_, rfl⟩
  | succ n ih =>
    obtain ⟨run, hrun⟩ := whileLoop_terminates pow destination rank rn hrank fuel s start [] 0
      hrn hfuel
    have hrn1 : run.agent.roadNetwork = rn := by
      rw [(readOnly_whileLoop pow destination fuel s start [] 0 run hrun).roadNetwork, hrn]
    simp only [antLoop, hrun]
    split
    · exact ih _ _ _ hrn1
    · exact ih _ _ _ hrn1

/-- C9, amended. When the topology admits a rank on edges that strictly decreases from every
edge to each of its candidates (so no run can cycle), every run of `findOptimalPath` ends
within `rank start + 1` evaluations of its loop condition, for every destination, `pow` and
random stream, and `findOptimalPath` returns. -/
theorem findOptimalPath_terminates_of_rank (pow : ℚ → ℚ → ℚ) (s : Agent)
    (start destination : String) (rank : String → Nat)
    (hrank : ∀ e segs c, mapFind e s.roadNetwork = some segs → c ∈ segs →
      rank c.edgeId < rank e)
    (fuel : Nat) (hfuel : rank start < fuel) :
    (findOptimalPath pow fuel s start destination).isSome = true := by
  obtain ⟨r, hr⟩ := antLoop_terminates pow start destination rank s.roadNetwork hrank fuel
    hfuel s.numAnts.toNat s [] (-1) rfl
  simp [findOptimalPath, hr]

theorem chainRank_decreases (e : String) (segs : List RouteSegment) (c : RouteSegment)
    (hfind : mapFind e chainNetwork = some segs) (hc : c ∈ segs) :
    chainRank c.edgeId < chainRank e := by
  simp only [chainNetwork, mapFind] at hfind
  split at hfind
  · rename_i hX
    simp only [Option.some.injEq] at hfind
    subst hfind
    subst hX
    simp only [List.mem_singleton] at hc
    subst hc
    simp [chainRank]
  · split at hfind
    · rename_i hY
      simp only [Option.some.injEq] at hfind
      subst hfind
      subst hY
      simp only [List.mem_singleton] at hc
      subst hc
      simp [chainRank]
    · cases hfind

/-- Witness for the amended C9: the chain topology with three steps of fuel. -/
theorem findOptimalPath_terminates_of_rank_witness :
    chainRank "X" < 3 ∧ (findOptimalPath unitPow 3 chainAgent "X" "Z").isSome = true :=
  ⟨by simp [chainRank],
    findOptimalPath_terminates_of_rank unitPow chainAgent "X" "Z" chainRank
      chainRank_decreases 3 (by simp [chainRank])⟩

/-! ## Frame of the evaluator and of the selector -/

theorem mapKeys_mapIndex (m : Table) (k e : String) :
    e ∈ mapKeys (mapIndex m k).2 ↔ e ∈ mapKeys m ∨ e = k :=
  mapKeys_mapUpdate m k e id

theorem probabilityLoop_keys (pow : ℚ → ℚ → ℚ) (segs : List RouteSegment) (s : Agent)
    (ps : List ℚ) (t : ℚ) (k : String) :
    (k ∈ mapKeys (probabilityLoop pow segs s ps t).2.2.pheromoneMatrix
        ↔ k ∈ mapKeys s.pheromoneMatrix ∨ k ∈ segs.map RouteSegment.edgeId)
      ∧ (k ∈ mapKeys (probabilityLoop pow segs s ps t).2.2.trafficDensity
        ↔ k ∈ mapKeys s.trafficDensity ∨ k ∈ segs.map RouteSegment.edgeId) := by
  induction segs generalizing s ps t with
  | nil => simp [probabilityLoop]
  | cons hd tl ih =>
    simp only [probabilityLoop]
    obtain ⟨h1, h2⟩ := ih
      { s with pheromoneMatrix := (mapIndex s.pheromoneMatrix hd.edgeId).2,
               trafficDensity := (mapIndex s.trafficDensity hd.edgeId).2 }
      (ps ++ [pow (mapIndex s.pheromoneMatrix hd.edgeId).1 s.alpha
        * pow (1 / (1 + (mapIndex s.trafficDensity hd.edgeId).1)) s.beta])
      (t + pow (mapIndex s.pheromoneMatrix hd.edgeId).1 s.alpha
        * pow (1 / (1 + (mapIndex s.trafficDensity hd.edgeId).1)) s.beta)
    rw [h1, h2]
    simp only [mapKeys_mapIndex, List.map_cons, List.mem_cons]
    constructor <;> tauto

theorem selectNextEdge_keys (pow : ℚ → ℚ → ℚ) (s : Agent) (segs : List RouteSegment)
    (k : String) :
    (k ∈ mapKeys (selectNextEdge pow s segs).2.pheromoneMatrix
        ↔ k ∈ mapKeys s.pheromoneMatrix ∨ k ∈ segs.map RouteSegment.edgeId)
      ∧ (k ∈ mapKeys (selectNextEdge pow s segs).2.trafficDensity
        ↔ k ∈ mapKeys s.trafficDensity ∨ k ∈ segs.map RouteSegment.edgeId) := by
  cases segs with
  | nil => simp [selectNextEdge]
  | cons hd tl =>
    have h := probabilityLoop_keys pow (hd :: tl) s [] 0 k
    simp only [selectNextEdge]
    split <;> exact h

/-- C10, counterexample. On a fresh agent, whose tables are empty, evaluating
`calculatePathQuality(X, Y)` enters `X` into both tables, and selecting among the candidates
`Y`, `Z` enters `Y` and `Z` into both tables: the key sets are not left as they were. -/
theorem reads_insert_keys :
    chainAgent.pheromoneMatrix = [] ∧ chainAgent.trafficDensity = []
      ∧ (calculatePathQuality chainAgent "X" "Y").2.pheromoneMatrix = [("X", 0)]
      ∧ (calculatePathQuality chainAgent "X" "Y").2.trafficDensity = [("X", 0)]
      ∧ (selectNextEdge unitPow chainAgent twoCandidates).2.pheromoneMatrix
          = [("Y", 0), ("Z", 0)]
      ∧ (selectNextEdge unitPow chainAgent twoCandidates).2.trafficDensity
          = [("Y", 0), ("Z", 0)] := by
  refine ⟨rfl, rfl, rfl, rfl, ?_, ?_⟩ <;>
  simp [selectNextEdge, probabilityLoop, selectionLoop, twoCandidates, chainAgent, unitPow,
    mapIndex, mapGet, mapFind, mapUpdate]

/-- C10, amended. `calculatePathQuality` and `selectNextEdge` change no value of the
pheromone table or of the traffic table, a missing entry reading as `0`, and remove no key;
reading through `operator[]` they enter into both tables, with value `0`, the edge `current`
(`calculatePathQuality`) and the `edgeId` of every candidate (`selectNextEdge`), so the key
sets after the call are the key sets before it together with those edges. -/
theorem reads_keep_values (pow : ℚ → ℚ → ℚ) (s : Agent) (current next : String)
    (candidates : List RouteSegment) :
    (∀ e, mapGet (calculatePathQuality s current next).2.pheromoneMatrix e
        = mapGet s.pheromoneMatrix e)
      ∧ (∀ e, mapGet (calculatePathQuality s current next).2.trafficDensity e
        = mapGet s.trafficDensity e)
      ∧ (∀ k, k ∈ mapKeys (calculatePathQuality s current next).2.pheromoneMatrix
        ↔ k ∈ mapKeys s.pheromoneMatrix ∨ k = current)
      ∧ (∀ k, k ∈ mapKeys (calculatePathQuality s current next).2.trafficDensity
        ↔ k ∈ mapKeys s.trafficDensity ∨ k = current)
      ∧ (∀ e, mapGet (selectNextEdge pow s candidates).2.pheromoneMatrix e
        = mapGet s.pheromoneMatrix e)
      ∧ (∀ e, mapGet (selectNextEdge pow s candidates).2.trafficDensity e
        = mapGet s.trafficDensity e)
      ∧ (∀ k, k ∈ mapKeys (selectNextEdge pow s candidates).2.pheromoneMatrix
        ↔ k ∈ mapKeys s.pheromoneMatrix ∨ k ∈ candidates.map RouteSegment.edgeId)
      ∧ (∀ k, k ∈ mapKeys (selectNextEdge pow s candidates).2.trafficDensity
        ↔ k ∈ mapKeys s.trafficDensity ∨ k ∈ candidates.map RouteSegment.edgeId) :=
  ⟨(readOnly_calculatePathQuality s current next).pheromone,
    (readOnly_calculatePathQuality s current next).traffic,
    fun k => mapKeys_mapIndex s.pheromoneMatrix current k,
    fun k => mapKeys_mapIndex s.trafficDensity current k,
    (readOnly_selectNextEdge pow s candidates).pheromone,
    (readOnly_selectNextEdge pow s candidates).traffic,
    fun k => (selectNextEdge_keys pow s candidates k).1,
    fun k => (selectNextEdge_keys pow s candidates k).2⟩

/-! ## Scenario C: the weight of a congested edge -/

/-- C11, counterexample. On a fresh agent, after `updateTrafficDensity(X, 5.0)`, the first
loop of `selectNextEdge` gives the congested edge `X` and the edge `Y` without traffic the
same weight `0` (`alpha = beta = 1`, both pheromone values `0`): the weight of `X` is not
strictly lower. -/
theorem fresh_weights_equal :
    (probabilityLoop unitPow [⟨"X", 0, 0⟩, ⟨"Y", 0, 0⟩] congestedAgent [] 0).1 = [0, 0]
      ∧ mapGet congestedAgent.trafficDensity "X" = 5
      ∧ mapGet congestedAgent.trafficDensity "Y" = 0
      ∧ mapGet congestedAgent.pheromoneMatrix "X" = mapGet congestedAgent.pheromoneMatrix "Y"
      ∧ ¬ (selectionWeight unitPow congestedAgent "X"
            < selectionWeight unitPow congestedAgent "Y") := by
  refine ⟨?_, ?_, ?_, ?_, ?_⟩ <;>
  simp [probabilityLoop, selectionWeight, congestedAgent, updateTrafficDensity, chainAgent,
    unitPow, mapIndex, mapGet, mapFind, mapUpdate]

/-- C11, amended. After `updateTrafficDensity(x, 5.0)` the heuristic term of `x` is `1/6`;
for an edge `other` with traffic `0` and the same pheromone value `p`, the first loop of
`selectNextEdge` computes the weights `pow(p, alpha) * pow(1/6, beta)` for `x` and
`pow(p, alpha) * pow(1, beta)` for `other`.  The weight of `x` is strictly lower whenever
`pow(p, alpha) > 0` and `pow(1/6, beta) < pow(1, beta)` (positive pheromone, `beta > 0`);
when `pow(p, alpha) = 0`, as on a fresh agent with `alpha > 0`, both weights are `0`. -/
theorem congested_weight (pow : ℚ → ℚ → ℚ) (s : Agent) (x other : String)
    (cx co : RouteSegment) (hcx : cx.edgeId = x) (hco : co.edgeId = other)
    (htraffic : mapGet (updateTrafficDensity s x 5).trafficDensity other = 0)
    (hpheromone : mapGet s.pheromoneMatrix other = mapGet s.pheromoneMatrix x) :
    1 / (1 + mapGet (updateTrafficDensity s x 5).trafficDensity x) = 1 / 6
      ∧ (probabilityLoop pow [cx, co] (updateTrafficDensity s x 5) [] 0).1
          = [pow (mapGet s.pheromoneMatrix x) s.alpha * pow (1 / 6) s.beta,
             pow (mapGet s.pheromoneMatrix x) s.alpha * pow 1 s.beta]
      ∧ (0 < pow (mapGet s.pheromoneMatrix x) s.alpha → pow (1 / 6) s.beta < pow 1 s.beta →
          pow (mapGet s.pheromoneMatrix x) s.alpha * pow (1 / 6) s.beta
            < pow (mapGet s.pheromoneMatrix x) s.alpha * pow 1 s.beta)
      ∧ (pow (mapGet s.pheromoneMatrix x) s.alpha = 0 →
          pow (mapGet s.pheromoneMatrix x) s.alpha * pow (1 / 6) s.beta = 0
            ∧ pow (mapGet s.pheromoneMatrix x) s.alpha * pow 1 s.beta = 0) := by
  have hx : mapGet (updateTrafficDensity s x 5).trafficDensity x = 5 := by
    simp [updateTrafficDensity, mapGet_mapUpdate_same]
  refine ⟨?_, ?_, ?_, ?_⟩
  · rw [hx]; norm_num
  · rw [(probabilityLoop_values pow [cx, co] (updateTrafficDensity s x 5) [] 0).1]
    have h6 : (1 : ℚ) / (1 + 5) = 1 / 6 := by norm_num
    have hp : (updateTrafficDensity s x 5).pheromoneMatrix = s.pheromoneMatrix := rfl
    have ha : (updateTrafficDensity s x 5).alpha = s.alpha := rfl
    have hb : (updateTrafficDensity s x 5).beta = s.beta := rfl
    simp only [List.nil_append, List.map_cons, List.map_nil, selectionWeight, hcx, hco, hx,
      htraffic, hp, ha, hb, hpheromone, h6, add_zero, div_one]
  · intro hpos hlt
    exact mul_lt_mul_of_pos_left hlt hpos
  · intro hzero
    rw [hzero]
    simp

/-- Witness for the amended C11: with pheromone `1` on `X` and on `Y` and
`alpha = beta = 1`, the weight of the congested `X` is strictly lower than that of `Y`. -/
theorem congested_weight_witness :
    mapGet learnedAgent.trafficDensity "Y" = 0
      ∧ unitPow 1 1 * unitPow (1 / 6) 1 < unitPow 1 1 * unitPow 1 1 :=
  have h := congested_weight unitPow { chainAgent with pheromoneMatrix := [("X", 1), ("Y", 1)] }
    "X" "Y" ⟨"X", 0, 0⟩ ⟨"Y", 0, 0⟩ rfl rfl
    (by simp [updateTrafficDensity, chainAgent, mapGet, mapFind, mapUpdate])
    (by simp [mapGet, mapFind])
  ⟨by simp [learnedAgent, updateTrafficDensity, chainAgent, mapGet, mapFind, mapUpdate],
    by
      have h3 := h.2.2.1
      simp only [chainAgent, mapGet, mapFind] at h3
      exact h3 (by simp [unitPow]) (by norm_num [unitPow])⟩

/-! ## The returned path is a walk -/

theorem isCandidate_of_mem (rn : Network) (current : String) (segs : List RouteSegment)
    (c : RouteSegment) (hfind : mapFind current rn = some segs) (hc : c ∈ segs) :
    isCandidate rn current c.edgeId = true := by
  simp only [isCandidate, hfind, List.any_eq_true, decide_eq_true_eq]
  exact ⟨c, hc, rfl⟩

theorem isWalk_index (rn : Network) (current : String) (path : List String)
    (h : isWalk rn current path = true) :
    (∀ e, path[0]? = some e → isCandidate rn current e = true)
      ∧ ∀ (i : Nat) (a b : String), path[i]? = some a → path[i + 1]? = some b →
          isCandidate rn a b = true := by
  induction path generalizing current with
  | nil =>
    refine ⟨?_, ?_⟩
    · intro e he
      simp at he
    · intro i a b ha
      simp at ha
  | cons hd tl ih =>
    simp only [isWalk, Bool.and_eq_true] at h
    obtain ⟨ih0, ihs⟩ := ih hd h.2
    refine ⟨?_, ?_⟩
    · intro e he
      simp only [List.getElem?_cons_zero, Option.some.injEq] at he
      rw [← he]
      exact h.1
    · intro i a b ha hb
      simp only [List.getElem?_cons_succ] at hb
      cases i with
      | zero =>
        simp only [List.getElem?_cons_zero, Option.some.injEq] at ha
        rw [← ha]
        exact ih0 b hb
      | succ i =>
        simp only [List.getElem?_cons_succ] at ha
        exact ihs i a b ha hb

theorem whileLoop_walk (pow : ℚ → ℚ → ℚ) (destination : String) (rn : Network) (fuel : Nat)
    (s : Agent) (current : String) (currentPath : List String) (pathQuality : ℚ) (run : Run)
    (hrn : s.roadNetwork = rn)
    (h : whileLoop pow destination fuel s current currentPath pathQuality = some run) :
    ∃ ext, run.currentPath = currentPath ++ ext ∧ isWalk rn current ext = true
      ∧ (current :: ext).getLast? = some run.current
      ∧ ∀ e ∈ (current :: ext).dropLast, e ≠ destination := by
  have stop : ∀ r : Run, r.currentPath = currentPath → r.current = current →
      ∃ ext, r.currentPath = currentPath ++ ext ∧ isWalk rn current ext = true
        ∧ (current :: ext).getLast? = some r.current
        ∧ ∀ e ∈ (current :: ext).dropLast, e ≠ destination := by
    intro r hp hc
    refine ⟨[], by simp [hp], rfl, by simp [hc], ?_⟩
    intro e he
    simp at he
  induction fuel generalizing s current currentPath pathQuality with
  | zero => simp [whileLoop] at h
  | succ n ih =>
    simp only [whileLoop] at h
    split at h
    · cases h; exact stop _ rfl rfl
    · rename_i hcur
      split at h
      · cases h; exact stop _ rfl rfl
      · cases h; exact stop _ rfl rfl
      · rename_i segment segments hfind
        split at h
        · cases h; exact stop _ rfl rfl
        · obtain ⟨c, hc, hsel⟩ := selectNextEdge_mem pow s segment segments
          have hcand : isCandidate rn current
              (selectNextEdge pow s (segment :: segments)).1 = true := by
            rw [hsel]
            exact isCandidate_of_mem rn current _ c (hrn ▸ hfind) hc
          have hrn1 : (calculatePathQuality (selectNextEdge pow s (segment :: segments)).2
              current (selectNextEdge pow s (segment :: segments)).1).2.roadNetwork = rn := by
            rw [(readOnly_calculatePathQuality _ _ _).roadNetwork,
              (readOnly_selectNextEdge pow s _).roadNetwork, hrn]
          have stop1 : ∀ r : Run,
              r.currentPath = currentPath ++ [(selectNextEdge pow s (segment :: segments)).1] →
              r.current = (selectNextEdge pow s (segment :: segments)).1 →
              ∃ ext, r.currentPath
                  = (currentPath ++ [(selectNextEdge pow s (segment :: segments)).1]) ++ ext
                ∧ isWalk rn (selectNextEdge pow s (segment :: segments)).1 ext = true
                ∧ ((selectNextEdge pow s (segment :: segments)).1 :: ext).getLast?
                    = some r.current
                ∧ ∀ e ∈ ((selectNextEdge pow s (segment :: segments)).1 :: ext).dropLast,
                    e ≠ destination := by
            intro r hp hc'
            refine ⟨[], by simp [hp], rfl, by simp [hc'], ?_⟩
            intro e he
            simp at he
          obtain ⟨ext, hpath, hwalk, hlast, hbefore⟩ := ih _ _ _ _ hrn1 h stop1
          refine ⟨(selectNextEdge pow s (segment :: segments)).1 :: ext, ?_, ?_, ?_, ?_⟩
          · rw [hpath]; simp
          · simp only [isWalk, Bool.and_eq_true]
            exact ⟨hcand, hwalk⟩
          · rw [List.getLast?_cons_cons]; exact hlast
          · intro e he
            rw [List.dropLast_cons₂] at he
            rcases List.mem_cons.1 he with rfl | he
            · exact hcur
            · exact hbefore e he

theorem antRuns_forall (pow : ℚ → ℚ → ℚ) (fuel : Nat) (start destination : String)
    (rn : Network) (P : Run → Prop)
    (hP : ∀ (s0 : Agent) (run : Run), s0.roadNetwork = rn →
      whileLoop pow destination fuel s0 start [] 0 = some run → P run)
    (n : Nat) (s : Agent) (r : List Run × Agent) (hrn : s.roadNetwork = rn)
    (h : antRuns pow fuel start destination n s = some r) : ∀ run ∈ r.1, P run := by
  induction n generalizing s r with
  | zero =>
    simp only [antRuns, Option.some.injEq] at h
    subst h
    intro run hrun
    cases hrun
  | succ n ih =>
    simp only [antRuns] at h
    split at h
    · cases h
    · rename_i run0 hrun0
      split at h
      · cases h
      · rename_i r1 hr1
        simp only [Option.some.injEq] at h
        subst h
        have hrn1 : run0.agent.roadNetwork = rn := by
          rw [(readOnly_whileLoop pow destination fuel s start [] 0 run0 hrun0).roadNetwork,
            hrn]
        intro run hrun
        rcases List.mem_cons.1 hrun with rfl | hrun
        · exact hP s _ hrn hrun0
        · exact ih _ _ hrn1 hr1 run hrun

/-- C12. Whenever `findOptimalPath(start, destination)` returns a non-empty path `p`, `p[0]`
is the `edgeId` of a candidate in `roadNetwork[start]`, each `p[i+1]` is the `edgeId` of a
candidate in `roadNetwork[p[i]]`, the last element of `p` is `destination`, and
`destination` occurs nowhere else in `p`. -/
theorem findOptimalPath_walk (pow : ℚ → ℚ → ℚ) (fuel : Nat) (s : Agent)
    (start destination : String) (p : List String) (s' : Agent)
    (h : findOptimalPath pow fuel s start destination = some (p, s')) (hne : p ≠ []) :
    (∃ e, p[0]? = some e ∧ isCandidate s.roadNetwork start e = true)
      ∧ (∀ (i : Nat) (a b : String), p[i]? = some a → p[i + 1]? = some b →
          isCandidate s.roadNetwork a b = true)
      ∧ p.getLast? = some destination
      ∧ destination ∉ p.dropLast := by
  simp only [findOptimalPath, antLoop_eq_pickBest] at h
  cases hruns : antRuns pow fuel start destination s.numAnts.toNat s with
  | none => simp [hruns] at h
  | some r =>
    obtain ⟨runs, sEnd⟩ := r
    simp only [hruns, Option.some.injEq, Prod.mk.injEq] at h
    obtain ⟨hpath, _⟩ := h
    rcases pickBest_spec destination runs [] (-1) with ⟨_, heq⟩ | ⟨i, r, hr, harr, _, heq, _⟩
    · rw [heq] at hpath
      exact absurd hpath.symm hne
    · rw [heq] at hpath
      have hmem : r ∈ runs := List.getElem?_mem hr
      obtain ⟨ext, hext, hwalk, hlast, hbefore⟩ :=
        antRuns_forall pow fuel start destination s.roadNetwork
          (fun run => ∃ ext, run.currentPath = [] ++ ext ∧ isWalk s.roadNetwork start ext = true
            ∧ (start :: ext).getLast? = some run.current
            ∧ ∀ e ∈ (start :: ext).dropLast, e ≠ destination)
          (fun s0 run hs0 hrun =>
            whileLoop_walk pow destination s.roadNetwork fuel s0 start [] 0 run hs0 hrun)
          _ s _ rfl hruns r hmem
      simp only [List.nil_append] at hext
      have hp : p = ext := by rw [← hpath, hext]
      subst hp
      obtain ⟨h0, hs⟩ := isWalk_index s.roadNetwork start p hwalk
      cases p with
      | nil => exact absurd rfl hne
      | cons a t =>
        refine ⟨⟨a, by simp, h0 a (by simp)⟩, hs, ?_, ?_⟩
        · rw [List.getLast?_cons_cons] at hlast
          rw [hlast, harr]
        · intro hin
          rw [List.dropLast_cons₂] at hbefore
          exact hbefore destination (List.mem_cons_of_mem _ hin) rfl

/-- Witness for C12: one ant on the chain topology, from `X` to `Z`, returns `[Y, Z]`. -/
theorem findOptimalPath_walk_witness :
    (∃ e, ["Y", "Z"][0]? = some e ∧ isCandidate chainAgent.roadNetwork "X" e = true)
      ∧ (∀ (i : Nat) (a b : String), ["Y", "Z"][i]? = some a → ["Y", "Z"][i + 1]? = some b →
          isCandidate chainAgent.roadNetwork a b = true)
      ∧ ["Y", "Z"].getLast? = some "Z"
      ∧ "Z" ∉ ["Y", "Z"].dropLast :=
  findOptimalPath_walk unitPow 5 chainAgent "X" "Z" ["Y", "Z"] chainFinal
    (by
      simp [chainFinal, findOptimalPath, antLoop, whileLoop, selectNextEdge, probabilityLoop,
        selectionLoop, calculatePathQuality, chainAgent, chainNetwork, mapFind, mapIndex,
        mapGet, mapUpdate, unitPow, updatePheromones, evaporate, reinforce])
    (by simp)

/-! ## Routing from an edge to itself -/

theorem antRuns_same_edge (pow : ℚ → ℚ → ℚ) (fuel : Nat) (e : String) (n : Nat) (s : Agent) :
    antRuns pow (fuel + 1) e e n s = some (List.replicate n ⟨s, e, [], 0⟩, s) := by
  induction n with
  | zero => rfl
  | succ n ih => simp [antRuns, whileLoop, ih, List.replicate_succ]

theorem pickBest_same_edge (e : String) (s : Agent) (n : Nat) (bestQuality : ℚ) :
    (pickBest e (List.replicate n ⟨s, e, [], 0⟩) [] bestQuality).1 = [] := by
  induction n generalizing bestQuality with
  | zero => rfl
  | succ n ih =>
    simp only [List.replicate_succ, pickBest]
    split
    · exact ih 0
    · exact ih bestQuality

/-- C13. For every edge `e`, agent state, topology and `numAnts`, each run of
`findOptimalPath(e, e)` ends at once at the destination with an empty path and quality `0`,
and the call returns the empty path; the caller's rerouting step then applies no route,
exactly as it does for every call that returns the empty path because no run arrived. -/
theorem findOptimalPath_same_edge (pow : ℚ → ℚ → ℚ) (fuel : Nat) (s : Agent) (e : String) :
    antRuns pow (fuel + 1) e e s.numAnts.toNat s
        = some (List.replicate s.numAnts.toNat ⟨s, e, [], 0⟩, s)
      ∧ findOptimalPath pow (fuel + 1) s e e = some ([], updatePheromones s)
      ∧ reroute pow (fuel + 1) s e e = some (none, updatePheromones s)
      ∧ ∀ (fuel1 : Nat) (start destination : String) (s' : Agent),
          findOptimalPath pow fuel1 s start destination = some ([], s') →
          reroute pow fuel1 s start destination = some (none, s') := by
  have hfind : findOptimalPath pow (fuel + 1) s e e = some ([], updatePheromones s) := by
    simp only [findOptimalPath, antLoop_eq_pickBest, antRuns_same_edge, pickBest_same_edge]
  refine ⟨antRuns_same_edge pow fuel e _ s, hfind, ?_, ?_⟩
  · simp [reroute, hfind]
  · intro fuel1 start destination s' h
    simp [reroute, h]

/-! ## The colony optimizer: the path that is returned -/

theorem edgeQuality_readOnly {s s1 : Agent} (h : ReadOnly s s1) (e : String) :
    edgeQuality s1 e = edgeQuality s e := by
  simp only [edgeQuality, h.pheromone, h.traffic]

theorem accumulatedQuality_nil (s : Agent) (start : String) :
    accumulatedQuality s start [] = 0 := by
  simp [accumulatedQuality]

theorem accumulatedQuality_cons (s : Agent) (start next : String) (rest : List String) :
    accumulatedQuality s start (next :: rest)
      = edgeQuality s start + accumulatedQuality s next rest := by
  simp [accumulatedQuality, List.dropLast_cons₂]

theorem whileLoop_quality (pow : ℚ → ℚ → ℚ) (destination : String) (fuel : Nat)
    (s0 s : Agent) (current : String) (currentPath : List String) (pathQuality : ℚ)
    (run : Run) (hro : ReadOnly s0 s)
    (h : whileLoop pow destination fuel s current currentPath pathQuality = some run) :
    ∃ ext, run.currentPath = currentPath ++ ext
      ∧ run.pathQuality = pathQuality + accumulatedQuality s0 current ext := by
  induction fuel generalizing s current currentPath pathQuality with
  | zero => simp [whileLoop] at h
  | succ n ih =>
    simp only [whileLoop] at h
    split at h
    · cases h; exact ⟨[], by simp, by simp [accumulatedQuality_nil]⟩
    · split at h
      · cases h; exact ⟨[], by simp, by simp [accumulatedQuality_nil]⟩
      · cases h; exact ⟨[], by simp, by simp [accumulatedQuality_nil]⟩
      · rename_i segment segments _
        split at h
        · cases h; exact ⟨[], by simp, by simp [accumulatedQuality_nil]⟩
        · have hsel := readOnly_trans hro (readOnly_selectNextEdge pow s (segment :: segments))
          have hcalc := readOnly_trans hsel (readOnly_calculatePathQuality
            (selectNextEdge pow s (segment :: segments)).2 current
            (selectNextEdge pow s (segment :: segments)).1)
          have hq : (calculatePathQuality (selectNextEdge pow s (segment :: segments)).2
              current (selectNextEdge pow s (segment :: segments)).1).1
              = edgeQuality s0 current := by
            rw [← edgeQuality_readOnly hsel current]
            rfl
          obtain ⟨ext, hpath, hquality⟩ := ih _ _ _ _ hcalc h
          refine ⟨(selectNextEdge pow s (segment :: segments)).1 :: ext, ?_, ?_⟩
          · rw [hpath]; simp
          · rw [hquality, hq, accumulatedQuality_cons]
            ring

theorem antRuns_forall_readOnly (pow : ℚ → ℚ → ℚ) (fuel : Nat) (start destination : String)
    (s : Agent) (P : Run → Prop)
    (hP : ∀ (s0 : Agent) (run : Run), ReadOnly s s0 →
      whileLoop pow destination fuel s0 start [] 0 = some run → P run)
    (n : Nat) (s1 : Agent) (r : List Run × Agent) (hro : ReadOnly s s1)
    (h : antRuns pow fuel start destination n s1 = some r) : ∀ run ∈ r.1, P run := by
  induction n generalizing s1 r with
  | zero =>
    simp only [antRuns, Option.some.injEq] at h
    subst h
    intro run hrun
    cases hrun
  | succ n ih =>
    simp only [antRuns] at h
    split at h
    · cases h
    · rename_i run0 hrun0
      split at h
      · cases h
      · rename_i r1 hr1
        simp only [Option.some.injEq] at h
        subst h
        have hro1 := readOnly_trans hro
          (readOnly_whileLoop pow destination fuel s1 start [] 0 run0 hrun0)
        intro run hrun
        rcases List.mem_cons.1 hrun with rfl | hrun
        · exact hP s1 _ hro hrun0
        · exact ih _ _ hro1 hr1 run hrun

/-- C5. With non-negative pheromone and traffic values, whenever `findOptimalPath` returns
(all runs ended), it has made `numAnts` runs, each of which walked the topology from `start`
to the edge it ended on and accumulated `pheromone[e] / (1 + trafficDensity[e])` over the
edges `e` it left; the returned path is the path of the earliest run, among those that ended
with `current == destination`, whose accumulated quality is the greatest among them (a later
run of equal quality does not replace it), and is the empty path when no run ended at the
destination. -/
theorem findOptimalPath_earliest_best (pow : ℚ → ℚ → ℚ) (fuel : Nat) (s : Agent)
    (start destination : String) (path : List String) (s' : Agent)
    (hpm : TableNonneg s.pheromoneMatrix) (htd : TableNonneg s.trafficDensity)
    (h : findOptimalPath pow fuel s start destination = some (path, s')) :
    ∃ runs sEnd, antRuns pow fuel start destination s.numAnts.toNat s = some (runs, sEnd)
      ∧ runs.length = s.numAnts.toNat
      ∧ (∀ r ∈ runs, isWalk s.roadNetwork start r.currentPath = true
          ∧ (start :: r.currentPath).getLast? = some r.current
          ∧ r.pathQuality = accumulatedQuality s start r.currentPath)
      ∧ EarliestBest destination runs path := by
  simp only [findOptimalPath, antLoop_eq_pickBest] at h
  cases hruns : antRuns pow fuel start destination s.numAnts.toNat s with
  | none => simp [hruns] at h
  | some r =>
    obtain ⟨runs, sEnd⟩ := r
    simp only [hruns, Option.some.injEq, Prod.mk.injEq] at h
    obtain ⟨hpath, _⟩ := h
    have hnonneg := antRuns_quality_nonneg pow fuel start destination _ s _ hpm htd hruns
    have hlen := antRuns_length pow fuel start destination _ s _ hruns
    have hshape := antRuns_forall_readOnly pow fuel start destination s
      (fun run => isWalk s.roadNetwork start run.currentPath = true
        ∧ (start :: run.currentPath).getLast? = some run.current
        ∧ run.pathQuality = accumulatedQuality s start run.currentPath)
      (fun s0 run hs0 hrun => by
        obtain ⟨ext, hext, hwalk, hlast, _⟩ :=
          whileLoop_walk pow destination s.roadNetwork fuel s0 start [] 0 run
            hs0.roadNetwork hrun
        obtain ⟨ext1, hext1, hquality⟩ :=
          whileLoop_quality pow destination fuel s s0 start [] 0 run hs0 hrun
        simp only [List.nil_append] at hext hext1
        rw [zero_add, ← hext1] at hquality
        rw [← hext] at hwalk hlast
        exact ⟨hwalk, hlast, hquality⟩)
      _ s _ (readOnly_refl s) hruns
    refine ⟨runs, sEnd, rfl, hlen, hshape, ?_, ?_⟩
    · intro hnone
      rcases pickBest_spec destination runs [] (-1) with ⟨_, heq⟩ | ⟨i, r, hr, harr, _⟩
      · rw [← hpath, heq]
      · exact absurd harr (hnone r (List.getElem?_mem hr))
    · rintro ⟨r0, hr0, harr0⟩
      rcases pickBest_spec destination runs [] (-1) with ⟨hle, _⟩ | ⟨i, r, hr, harr, _, heq, hmax⟩
      · have h1 := hle r0 hr0 harr0
        have h2 := hnonneg r0 hr0
        linarith
      · exact ⟨i, r, hr, harr, by rw [← hpath, heq], hmax⟩

theorem forkFacts :
    ((1 : ℚ) ≤ 2) ∧ ¬ ((4 : ℚ) ≤ 2) ∧ ((4 : ℚ) ≤ 2 + 3) ∧ ¬ ((7 : ℚ) ≤ 2) ∧ ¬ ((7 : ℚ) ≤ 2 + 3)
      ∧ ((7 : ℚ) ≤ 2 + 3 + 3) ∧ ¬ ((10 : ℚ) ≤ 2) ∧ ¬ ((10 : ℚ) ≤ 2 + 3)
      ∧ ¬ ((10 : ℚ) ≤ 2 + 3 + 3) ∧ ((10 : ℚ) ≤ 2 + 3 + 3 + 10)
      ∧ ((-1 : ℚ) < 1 + 2) ∧ ((1 : ℚ) + 2 < 1 + 3) ∧ ((1 : ℚ) + 3 < 1 + 10) := by
  norm_num

theorem forkAgent_nonneg : TableNonneg forkAgent.pheromoneMatrix := by
  intro entry hentry
  simp only [forkAgent, List.mem_cons, List.mem_singleton, List.not_mem_nil, or_false]
    at hentry
  rcases hentry with rfl | rfl | rfl | rfl | rfl <;> norm_num

/-- Witness for C5: four ants on the fork topology.  The runs end at `T` through `A` with
quality `3`, at `T` through `B` with quality `4`, at `T` through `C` with quality `4`, and at
the dead end `F` with quality `11`; the returned path is `[B, T]`, the earlier of the two
best arrived runs, and neither the later run of equal quality nor the run of greater quality
that did not arrive replaces it. -/
theorem findOptimalPath_earliest_best_witness :
    (antRuns unitPow 3 "S" "T" forkAgent.numAnts.toNat forkAgent).map
        (fun r => r.1.map (fun run => (run.current, run.currentPath, run.pathQuality)))
        = some [("T", ["A", "T"], 3), ("T", ["B", "T"], 4), ("T", ["C", "T"], 4),
                ("F", ["E", "F"], 11)]
      ∧ ∃ runs sEnd, antRuns unitPow 3 "S" "T" forkAgent.numAnts.toNat forkAgent
            = some (runs, sEnd)
          ∧ runs.length = forkAgent.numAnts.toNat
          ∧ (∀ r ∈ runs, isWalk forkAgent.roadNetwork "S" r.currentPath = true
              ∧ ("S" :: r.currentPath).getLast? = some r.current
              ∧ r.pathQuality = accumulatedQuality forkAgent "S" r.currentPath)
          ∧ EarliestBest "T" runs ["B", "T"] := by
  obtain ⟨f1, f2, f3, f4, f5, f6, f7, f8, f9, f10, f11, f12, f13⟩ := forkFacts
  have hn : forkAgent.numAnts.toNat = 4 := rfl
  have hcall : ∃ s', findOptimalPath unitPow 3 forkAgent "S" "T" = some (["B", "T"], s') := by
    simp [findOptimalPath, antLoop, whileLoop, selectNextEdge, probabilityLoop,
      selectionLoop, calculatePathQuality, forkAgent, forkNetwork, mapFind, mapIndex,
      mapGet, mapUpdate, unitPow, f1, f2, f3, f4, f5, f6, f7, f8, f9, f10, f11, f12, f13]
  obtain ⟨s', hs'⟩ := hcall
  refine ⟨?_, findOptimalPath_earliest_best unitPow 3 forkAgent "S" "T" ["B", "T"] s'
    forkAgent_nonneg tableNonneg_nil hs'⟩
  rw [hn]
  simp [antRuns, whileLoop, selectNextEdge, probabilityLoop,
    selectionLoop, calculatePathQuality, forkAgent, forkNetwork, mapFind, mapIndex,
    mapGet, mapUpdate, unitPow, f1, f2, f3, f4, f5, f6, f7, f8, f9, f10, f11, f12, f13]
  norm_num

end CAMOACO
